import Mathlib

/-!
# Verification of the `arda` terrain generator

Shallow embedding of the terrain-generation pipeline:
the seeded PRNG (`src/utils/prng.js`), the diamond-square noise
synthesizer (`src/utils/noise.js`), the terrain classifier, smoother,
region detectors and contour tracer (`src/terrain.js`), and the retry
orchestrator (`generate`).

Modelling conventions:
* JavaScript numbers are modelled as exact rationals (`ℚ`) and integers
  (`ℤ`/`ℕ`); `Uint8Array` grids become `Array ℕ`, `Float32Array`
  fields become `Array ℚ`. Out-of-bounds reads use `Array.getD`
  with a default chosen so the surrounding comparison behaves like the
  JavaScript comparison against `undefined`.
* JavaScript `%` on integers is truncated remainder, i.e. `Int.tmod`.
* `while` loops whose termination is not structural (the flood fills
  and the contour tracer) take an explicit fuel argument; the callers
  pass fuel that dominates the number of iterations the JavaScript
  loop can make (every flood-fill iteration pops one stack entry and
  entries are pushed at most once per cell).
* Thrown `TerrainGenerationError`s become `Except` errors.
-/

namespace Arda

/-! ## PRNG (`src/utils/prng.js`) -/

structure RNG where
  seed : Int
  state : Int
  deriving Repr, DecidableEq

namespace PRNG

/-- `create(seed)`: `state = seed % 2147483647; if (state <= 0) seed += 2147483646`.
Note the source increments `seed`, not `state`, in the non-positive branch. -/
def create (seed : Int) : RNG :=
  let state := seed.tmod 2147483647
  if state ≤ 0 then
    { seed := seed + 2147483646, state := state }
  else
    { seed := seed, state := state }

/-- `next(rng)`: advance `state = state * 16807 % 2147483647` and return
`(state - 1) / 2147483646`. -/
def next (rng : RNG) : ℚ × RNG :=
  let state := (rng.state * 16807).tmod 2147483647
  (((state : ℚ) - 1) / 2147483646, { rng with state := state })

/-- JavaScript `Number.MAX_SAFE_INTEGER`. -/
def MAX_SAFE_INTEGER : ℚ := 9007199254740991

/-- `int(rng, min, max) = Math.floor(min + next(rng) * (max - min))`. -/
def int (rng : RNG) (min : ℚ := 0) (max : ℚ := MAX_SAFE_INTEGER) : Int × RNG :=
  let (n, rng') := next rng
  (⌊min + n * (max - min)⌋, rng')

/-- `float(rng, min, max) = min + next(rng) * (max - min)`. -/
def float (rng : RNG) (min max : ℚ) : ℚ × RNG :=
  let (n, rng') := next rng
  (min + n * (max - min), rng')

end PRNG

/-- Bounded write: JavaScript typed-array writes are no-ops for us when
out of bounds (no in-bounds write in the source is affected). -/
def setA {α : Type} (a : Array α) (i : ℕ) (v : α) : Array α :=
  if h : i < a.size then a.set ⟨i, h⟩ v else a

/-! ## Noise (`src/utils/noise.js`, `diamondSquare`) -/

namespace Noise

/-- `Math.max(0, Math.min(1, x))`. -/
def clamp01 (x : ℚ) : ℚ := max 0 (min 1 x)

/-- The size-search loop
`for (let exp = 1; size <= minSize; exp++) { size = 2 ** exp + 1; }`
starting from `size = 1`.  The fuel passed by `dsSizeOf` dominates the
number of iterations (`2 ^ k + 1 > k` for every `k`). -/
def sizeLoop : ℕ → ℕ → ℕ → ℕ → ℕ
  | 0, _, _, size => size
  | fuel + 1, minSize, exp, size =>
    if size ≤ minSize then sizeLoop fuel minSize (exp + 1) (2 ^ exp + 1) else size

/-- The values visited by `for (v = 0; v < bound; v += step)`. -/
def stepRange (bound step : ℕ) : List ℕ :=
  if step = 0 then [] else (List.range ((bound + step - 1) / step)).map (· * step)

/-- The step sizes visited by `for (let i = size - 1; i > 1; i /= 2)`. -/
def halvings : ℕ → ℕ → List ℕ
  | 0, _ => []
  | fuel + 1, i => if 1 < i then i :: halvings fuel (i / 2) else []

/-- The diamond step for the sub-square with top-left corner `(x, y)`. -/
def diamondCell (size i : ℕ) (r : ℚ) (st : Array ℚ × RNG) (y x : ℕ) :
    Array ℚ × RNG :=
  let (array, rng) := st
  let x0 := x
  let y0 := y
  let x1 := x0 + i
  let y1 := y0 + i
  let s0 := array.getD (x0 + y0 * size) 0
  let s1 := array.getD (x1 + y0 * size) 0
  let s2 := array.getD (x0 + y1 * size) 0
  let s3 := array.getD (x1 + y1 * size) 0
  let cx := x0 + i / 2
  let cy := y0 + i / 2
  let (d, rng) := PRNG.float rng (-r) r
  let v := (s0 + s1 + s2 + s3) / 4 + d
  (Arda.setA array (cx + cy * size) v, rng)

/-- The square step for the sub-square with top-left corner `(x, y)`. -/
def squareCell (size i : ℕ) (r : ℚ) (st : Array ℚ × RNG) (y x : ℕ) :
    Array ℚ × RNG :=
  let (array, rng) := st
  let hi := i / 2
  let x0 := x
  let y0 := y
  let x1 := x0 + i
  let y1 := y0 + i
  let s0 := array.getD (x0 + y0 * size) 0
  let s1 := array.getD (x1 + y0 * size) 0
  let s2 := array.getD (x0 + y1 * size) 0
  let s3 := array.getD (x1 + y1 * size) 0
  let cx := x0 + hi
  let cy := y0 + hi
  let cs := array.getD (cx + cy * size) 0
  let d0 := if y0 = 0 then (s0 + cs + s1) / 3
            else (s0 + cs + s1 + array.getD (cx + (y0 - hi) * size) 0) / 4
  let d1 := if x0 = 0 then (s0 + cs + s2) / 3
            else (s0 + cs + s2 + array.getD ((x0 - hi) + cy * size) 0) / 4
  let d2 := if x1 = size - 1 then (s1 + cs + s3) / 3
            else (s1 + cs + s3 + array.getD ((x1 + hi) + cy * size) 0) / 4
  let d3 := if y1 = size - 1 then (cs + s2 + s3) / 3
            else (cs + s2 + s3 + array.getD (cx + (y1 + hi) * size) 0) / 4
  let (j0, rng) := PRNG.float rng (-r) r
  let array := Arda.setA array (cx + y0 * size) (d0 + j0)
  let (j1, rng) := PRNG.float rng (-r) r
  let array := Arda.setA array (x0 + cy * size) (d1 + j1)
  let (j2, rng) := PRNG.float rng (-r) r
  let array := Arda.setA array (x1 + cy * size) (d2 + j2)
  let (j3, rng) := PRNG.float rng (-r) r
  let array := Arda.setA array (cx + y1 * size) (d3 + j3)
  (array, rng)

/-- One round of the main loop at step size `i`: the diamond pass then
the square pass, both iterating `y` and `x` from `0` to `size - 1` in
steps of `i`. -/
def dsRound (size : ℕ) (roughness jitter : ℚ) (st : Array ℚ × RNG) (i : ℕ) :
    Array ℚ × RNG :=
  let r := ((i : ℚ) / (size : ℚ)) * roughness + jitter
  let st := (stepRange (size - 1) i).foldl (fun st y =>
    (stepRange (size - 1) i).foldl (fun st x => diamondCell size i r st y x) st) st
  (stepRange (size - 1) i).foldl (fun st y =>
    (stepRange (size - 1) i).foldl (fun st x => squareCell size i r st y x) st) st

/-- Configuration of `diamondSquare`.  The source defaults `seed` to
`Date.now()`; every caller in the repository passes a seed, so the
model makes it a plain field. -/
structure DSConfig where
  width : ℕ
  height : ℕ
  roughness : ℚ := 1/2
  jitter : ℚ := 0
  seed : Int
  corners : Option (ℚ × ℚ × ℚ × ℚ) := none
  deriving Repr

/-- The working size `2 ^ n + 1` chosen for the requested dimensions. -/
def dsSizeOf (cfg : DSConfig) : ℕ :=
  let minSize := Nat.max cfg.width cfg.height
  sizeLoop (minSize + 2) minSize 1 1

/-- The working field right before the final clamp: corners seeded
(from the caller or from four draws), then all rounds of diamond and
square passes. -/
def dsRaw (cfg : DSConfig) : Array ℚ :=
  let rng := PRNG.create cfg.seed
  let size := dsSizeOf cfg
  let array : Array ℚ := Array.mkArray (size * size) 0
  let x0 := 0
  let y0 := 0
  let x1 := size - 1
  let y1 := size - 1
  let (array, rng) :=
    match cfg.corners with
    | some (c0, c1, c2, c3) =>
      let array := Arda.setA array (x0 + y0 * size) c0
      let array := Arda.setA array (x1 + y0 * size) c1
      let array := Arda.setA array (x0 + y1 * size) c2
      let array := Arda.setA array (x1 + y1 * size) c3
      (array, rng)
    | none =>
      let (c0, rng) := PRNG.float rng 0 1
      let array := Arda.setA array (x0 + y0 * size) c0
      let (c1, rng) := PRNG.float rng 0 1
      let array := Arda.setA array (x1 + y0 * size) c1
      let (c2, rng) := PRNG.float rng 0 1
      let array := Arda.setA array (x0 + y1 * size) c2
      let (c3, rng) := PRNG.float rng 0 1
      let array := Arda.setA array (x1 + y1 * size) c3
      (array, rng)
  ((halvings size (size - 1)).foldl (dsRound size cfg.roughness cfg.jitter)
    (array, rng)).1

/-- The final reshape: copy the top-left `width × height` rectangle of
the working field row by row into a fresh `width * height` array. -/
def reshape (array : Array ℚ) (size width height : ℕ) : Array ℚ :=
  (List.range height).foldl (fun slice y =>
    (List.range width).foldl (fun slice k =>
      Arda.setA slice (y * width + k) (array.getD (y * size + k) 0)) slice)
    (Array.mkArray (width * height) 0)

/-- `diamondSquare`: run the rounds, clamp every value into `[0,1]`,
then return the working field directly when its size coincides with
the requested dimensions, else the cropped top-left rectangle. -/
def diamondSquare (cfg : DSConfig) : Array ℚ :=
  let size := dsSizeOf cfg
  let array := (dsRaw cfg).map clamp01
  if size = cfg.width ∧ size = cfg.height then array
  else reshape array size cfg.width cfg.height

end Noise

/-! ## Terrain (`src/terrain.js`) -/

namespace Terrain

def WATER : ℕ := 0
def LAND : ℕ := 1

/-- The `(dx, dy)` offsets visited by the `for (dy...) for (dx...)`
neighbour loops of the flood fills and the smoother, in visit order,
with the centre excluded. -/
def floodOffsets : List (Int × Int) :=
  [(-1, -1), (0, -1), (1, -1), (-1, 0), (1, 0), (-1, 1), (0, 1), (1, 1)]

/-- `calculateLandPercent`: the number of `LAND` cells divided by the
grid length (the source divides JavaScript numbers; an empty grid is
meaningless to both sides). -/
def calculateLandPercent (terrain : Array ℕ) : ℚ :=
  let land := terrain.foldl (fun land v => if v = LAND then land + 1 else land) (0 : ℕ)
  (land : ℚ) / (terrain.size : ℚ)

/-- `createFromHeightMap`: `LAND` where the height exceeds `seaLevel`,
`WATER` elsewhere. -/
def createFromHeightMap (width height : ℕ) (heightMap : Array ℚ) (seaLevel : ℚ) :
    Array ℕ :=
  (List.range height).foldl (fun t y =>
    (List.range width).foldl (fun t x =>
      let i := x + y * width
      Arda.setA t i (if heightMap.getD i 0 > seaLevel then LAND else WATER)) t)
    (Array.mkArray (width * height) 0)

/-- One cellular-automaton round of `smooth` over the snapshot
`current`, returning the new buffer and the `stable` flag. -/
def smoothRound (width height minNeighbours : ℕ) (current : Array ℕ) :
    Array ℕ × Bool :=
  (List.range height).foldl (fun (st : Array ℕ × Bool) y =>
    (List.range width).foldl (fun (st : Array ℕ × Bool) x =>
      let (next, stable) := st
      let value := current.getD (x + y * width) 0
      let neighbours := floodOffsets.foldl (fun (cnt : ℕ) d =>
        let nx := (x : Int) + d.1
        let ny := (y : Int) + d.2
        let sample :=
          if 0 ≤ nx ∧ 0 ≤ ny ∧ nx < (width : Int) ∧ ny < (height : Int) then
            current.getD (nx + ny * width).toNat 0
          else value
        if sample = value then cnt + 1 else cnt) 0
      if neighbours < minNeighbours then
        (Arda.setA next (x + y * width) (value ^^^ 1), false)
      else
        (Arda.setA next (x + y * width) value, stable)) st)
    (current, true)

/-- The iteration loop of `smooth`: run rounds until one is stable or
the iteration budget runs out, always returning the freshest buffer. -/
def smoothLoop (width height minNeighbours : ℕ) : ℕ → Array ℕ → Array ℕ
  | 0, current => current
  | n + 1, current =>
    let (next, stable) := smoothRound width height minNeighbours current
    if stable then next else smoothLoop width height minNeighbours n next

/-- `smooth` (the source mutates `terrain` in place via
`terrain.set(current)`; the model returns the final buffer). -/
def smooth (width height : ℕ) (terrain : Array ℕ)
    (minNeighbours iterations : ℕ) : Array ℕ :=
  smoothLoop width height minNeighbours iterations terrain

structure SeaProfile where
  id : ℕ
  tiles : Finset ℕ
  deriving DecidableEq

structure LandProfile where
  id : ℕ
  tiles : Finset ℕ
  path : List ℕ
  deriving DecidableEq

/-- The neighbour-visit body shared verbatim by the two flood fills
(`detectSeas` and `detectLands` differ only in the region test, passed
here as `belongs`): bounds-check the neighbour at offset `d` of
`(x, y)`; when it belongs to the region and is unvisited, mark it,
push it and collect it. -/
def floodVisit (width height : ℕ) (belongs : ℕ → Bool) (x y : ℕ)
    (st : List ℕ × Array ℕ × Finset ℕ) (d : Int × Int) :
    List ℕ × Array ℕ × Finset ℕ :=
  let (stack, visited, tiles) := st
  let nx := (x : Int) + d.1
  let ny := (y : Int) + d.2
  if 0 ≤ nx ∧ 0 ≤ ny ∧ nx < (width : Int) ∧ ny < (height : Int) then
    let n := (nx + ny * width).toNat
    if belongs n ∧ visited.getD n 0 = 0 then
      (n :: stack, Arda.setA visited n 1, insert n tiles)
    else st
  else st

/-- The `while (stack.length > 0)` loop shared by the two flood fills:
pop a cell, then visit its eight neighbours.  Fuel dominates the
iteration count: each iteration pops one entry, and a cell is pushed
only when its `visited` bit flips `0 → 1`, which happens at most once
per cell over a whole detection pass. -/
def flood (width height : ℕ) (belongs : ℕ → Bool) :
    ℕ → List ℕ → Array ℕ → Finset ℕ → Array ℕ × Finset ℕ
  | 0, _, visited, tiles => (visited, tiles)
  | _ + 1, [], visited, tiles => (visited, tiles)
  | fuel + 1, i :: stack, visited, tiles =>
    let x := i % width
    let y := i / width
    let st := floodOffsets.foldl (floodVisit width height belongs x y)
      (stack, visited, tiles)
    flood width height belongs fuel st.1 st.2.1 st.2.2

/-- The sea fill collects cells with `terrain[n] === WATER` (marking
them in the `ocean` bitmap). -/
def seaFlood (width height : ℕ) (terrain : Array ℕ) :
    ℕ → List ℕ → Array ℕ → Finset ℕ → Array ℕ × Finset ℕ :=
  flood width height fun n => terrain.getD n LAND == WATER

/-- The `i = x + y * width` indices visited by the border scan of
`detectSeas`, in visit order.  The source iterates `y` up to `width`
and `x` up to `height` (swapped roles), and skips the cell when
`x > 0 && y > 0 && x < width - 1 && y < height - 1`. -/
def seaScanCells (width height : ℕ) : List ℕ :=
  (List.range width).flatMap fun y =>
    ((List.range height).filter fun x =>
      decide ¬(0 < x ∧ 0 < y ∧ x < width - 1 ∧ y < height - 1)).map fun x =>
      x + y * width

/-- `detectSeas`: flood-fill from each scanned cell that currently reads
`WATER` (there is no visited check at the seed), pushing one region per
such cell with ids starting at `1`; afterwards rewrite every terrain
cell from the `ocean` bitmap (`WATER` where marked, `LAND` elsewhere).
Returns the sea list and the rewritten terrain. -/
def seaScanStep (width height : ℕ) (terrain : Array ℕ)
    (st : Array ℕ × List SeaProfile × ℕ) (i : ℕ) :
    Array ℕ × List SeaProfile × ℕ :=
  if terrain.getD i LAND ≠ WATER then st
  else
    let res := seaFlood width height terrain (width * height + 1) [i] st.1 ∅
    (res.1, st.2.1 ++ [⟨st.2.2, res.2⟩], st.2.2 + 1)

def detectSeas (width height : ℕ) (terrain : Array ℕ) :
    List SeaProfile × Array ℕ :=
  let res := (seaScanCells width height).foldl (seaScanStep width height terrain)
    (Array.mkArray (width * height) 0, [], 1)
  let ocean := res.1
  let seas := res.2.1
  let terrain := (List.range terrain.size).foldl (fun t i =>
    Arda.setA t i (if ocean.getD i 0 ≠ 0 then WATER else LAND)) terrain
  (seas, terrain)

-- 0 1 2
-- 7   3
-- 6 5 4
def MOORE_NEIGHBOURHOOD : List (Int × Int) :=
  [(-1, -1), (0, -1), (1, -1), (1, 0), (1, 1), (0, 1), (-1, 1), (-1, 0)]

/-- State of the `trace` loop: current cell `P`, backtrack cell `B`,
and the path so far (`bv` stands for the source's `by`, a Lean
keyword). -/
structure TraceState where
  px : Int
  py : Int
  bx : Int
  bv : Int
  path : List ℕ
  deriving Repr, DecidableEq

/-- One neighbour probe of `trace`'s clockwise scan (the body of its
inner `for` loop): when the probed cell matches the target type it
becomes the new `P` (appended to the path unless it duplicates the last
entry, in which case the scan continues from the moved `P`), otherwise
it becomes the new backtrack cell `B`. -/
def traceVisit (width height : ℕ) (terrain : Array ℕ) (type : ℕ) (offset : ℕ)
    (st : TraceState × Bool) (i : ℕ) : TraceState × Bool :=
  let (s, broke) := st
  if broke then st
  else
    let index := (i + offset) % 8
    let d := MOORE_NEIGHBOURHOOD.getD index (0, 0)
    let nx := s.px + d.1
    let ny := s.py + d.2
    let n := (nx + ny * width).toNat
    let valid := 0 ≤ nx ∧ 0 ≤ ny ∧ nx < (width : Int) ∧ ny < (height : Int)
    if valid ∧ terrain.getD n LAND = type then
      let s := { s with px := nx, py := ny }
      if s.path.getLast? = some n then (s, false)
      else ({ s with path := s.path ++ [n] }, true)
    else
      ({ s with bx := nx, bv := ny }, false)

/-- One iteration of `trace`'s `while (true)` body: pick the clockwise
start offset from the direction `B → P`, set `B := P`, then scan the
Moore neighbourhood from that offset with `traceVisit`. -/
def traceStep (width height : ℕ) (terrain : Array ℕ) (type : ℕ)
    (s : TraceState) : TraceState :=
  let offset : ℕ :=
    if s.px > s.bx then 7
    else if s.px < s.bx then 3
    else if s.py > s.bv then 1
    else if s.py < s.bv then 5
    else 0
  let s := { s with bx := s.px, bv := s.py }
  ((List.range 8).foldl (traceVisit width height terrain type offset)
    (s, false)).1

/-- The `while (true)` loop of `trace`: run `traceStep` until `P`
returns to the start.  The source loop is not structurally bounded, so
the model takes fuel; a run that exhausts the fuel corresponds to a
JavaScript run that has not terminated within that many iterations. -/
def traceLoop (width height : ℕ) (terrain : Array ℕ) (type : ℕ)
    (sx sy : Int) : ℕ → TraceState → List ℕ
  | 0, s => s.path
  | fuel + 1, s =>
    let s := traceStep width height terrain type s
    if s.px = sx ∧ s.py = sy then s.path
    else traceLoop width height terrain type sx sy fuel s

/-- Fuel given to `trace` by `detectLands` in the model. -/
def traceFuel (width height : ℕ) : ℕ := 8 * width * height + 8

/-- `trace({x, y, width, height, terrain, type})`. -/
def trace (x y : ℕ) (width height : ℕ) (terrain : Array ℕ) (type : ℕ) :
    List ℕ :=
  traceLoop width height terrain type x y (traceFuel width height)
    ⟨x, y, (x : Int) - 1, y, []⟩

/-- The land fill collects cells with `terrain[n] !== WATER` (the
source skips `WATER` neighbours and walks everything else), marking
them in the `seen` bitmap. -/
def landFlood (width height : ℕ) (terrain : Array ℕ) :
    ℕ → List ℕ → Array ℕ → Finset ℕ → Array ℕ × Finset ℕ :=
  flood width height fun n => terrain.getD n WATER != WATER

/-- The row-major cell indices scanned by `detectLands`. -/
def landScanCells (width height : ℕ) : List ℕ :=
  (List.range height).flatMap fun y => (List.range width).map fun x => x + y * width

/-- `detectLands`: row-major scan; each unseen non-`WATER` cell seeds a
flood fill and pushes one region (ids starting at `0`) whose boundary
is computed by `trace` from the seed's coordinates. -/
def landScanStep (width height : ℕ) (terrain : Array ℕ)
    (st : Array ℕ × List LandProfile × ℕ) (id : ℕ) :
    Array ℕ × List LandProfile × ℕ :=
  if terrain.getD id WATER = WATER then st
  else if st.1.getD id 0 ≠ 0 then st
  else
    let res := landFlood width height terrain (width * height + 1) [id] st.1 ∅
    let path := trace (id % width) (id / width) width height terrain LAND
    (res.1, st.2.1 ++ [⟨st.2.2, res.2, path⟩], st.2.2 + 1)

def detectLands (width height : ℕ) (terrain : Array ℕ) : List LandProfile :=
  ((landScanCells width height).foldl (landScanStep width height terrain)
    (Array.mkArray (width * height) 0, [], 0)).2.1

/-- Generation parameters (`WorldGenerationParams`).  Bounds that the
source defaults to `Infinity` are modelled in `WithTop ℕ`. -/
structure WorldGenerationParams where
  seed : Int
  width : ℕ
  height : ℕ
  seaLevel : ℚ
  noiseRoughess : ℚ
  minLands : ℕ
  maxLands : WithTop ℕ
  minSeas : ℕ
  maxSeas : WithTop ℕ
  minPercentLand : ℚ
  maxPercentLand : ℚ
  minLandSize : ℕ
  maxLandSize : WithTop ℕ
  minSeaSize : ℕ
  maxSeaSize : WithTop ℕ
  maxRetries : ℕ
  maxSmoothingIterations : ℕ

/-- The `TerrainGenerationError`s thrown by `generateUnsafe`, plus the
plain `Error` thrown by `generate` when the retry budget runs out. -/
inductive GenError where
  | wantedAtLeastPercentLand (wanted got : ℚ)
  | wantedAtMostPercentLand (wanted got : ℚ)
  | wantedAtLeastSeas (wanted got : ℕ)
  | wantedAtMostSeas (wanted : WithTop ℕ) (got : ℕ)
  | wantedAtLeastLands (wanted got : ℕ)
  | wantedAtMostLands (wanted : WithTop ℕ) (got : ℕ)
  | couldNotGenerate (tries : ℕ)
  deriving DecidableEq

structure GenerationResult where
  width : ℕ
  height : ℕ
  heights : Array ℚ
  moisture : Array ℚ
  types : Array ℕ
  seas : List SeaProfile
  lands : List LandProfile
  deriving DecidableEq

/-- `generateUnsafe`: the full single-attempt pipeline. -/
def generateUnsafe (params : WorldGenerationParams) :
    Except GenError GenerationResult :=
  let width := params.width
  let height := params.height
  let rng := PRNG.create params.seed
  let hdraw := PRNG.int rng
  let heightMap := Noise.diamondSquare
    { width := width, height := height, roughness := params.noiseRoughess,
      seed := hdraw.1 }
  let mdraw := PRNG.int hdraw.2
  let moistureMap := Noise.diamondSquare
    { width := width, height := height, roughness := 2, seed := mdraw.1 }
  let terrain := createFromHeightMap width height heightMap params.seaLevel
  let landPercent := calculateLandPercent terrain
  if landPercent < params.minPercentLand then
    .error (.wantedAtLeastPercentLand params.minPercentLand landPercent)
  else if landPercent > params.maxPercentLand then
    .error (.wantedAtMostPercentLand params.maxPercentLand landPercent)
  else
    let terrain := smooth width height terrain 4 params.maxSmoothingIterations
    let detected := detectSeas width height terrain
    let terrain := detected.2
    let seas := detected.1.filter fun sea =>
      decide (params.minSeaSize ≤ sea.tiles.card ∧
        (sea.tiles.card : WithTop ℕ) ≤ params.maxSeaSize)
    if seas.length < params.minSeas then
      .error (.wantedAtLeastSeas params.minSeas seas.length)
    else if (seas.length : WithTop ℕ) > params.maxSeas then
      .error (.wantedAtMostSeas params.maxSeas seas.length)
    else
      let lands := detectLands width height terrain
      let lands := lands.filter fun land =>
        decide (params.minLandSize ≤ land.tiles.card ∧
          (land.tiles.card : WithTop ℕ) ≤ params.maxLandSize)
      if lands.length < params.minLands then
        .error (.wantedAtLeastLands params.minLands lands.length)
      else if (lands.length : WithTop ℕ) > params.maxLands then
        .error (.wantedAtMostLands params.maxLands lands.length)
      else
        .ok { width := width, height := height, heights := heightMap,
              moisture := moistureMap, types := terrain, seas := seas,
              lands := lands }

/-- The retry loop of `generate`, additionally counting how many times
`generateUnsafe` ran.  On a caught `TerrainGenerationError` the next
seed is drawn from the orchestrator's own stream; when the budget runs
out the source throws `Could not generate terrain in N tries`. -/
def generateLoop (params : WorldGenerationParams) :
    ℕ → Int → RNG → Except GenError GenerationResult × ℕ
  | 0, _, _ => (.error (.couldNotGenerate params.maxRetries), 0)
  | fuel + 1, seed, rng =>
    match generateUnsafe { params with seed := seed } with
    | .ok r => (.ok r, 1)
    | .error _ =>
      let draw := PRNG.int rng
      let res := generateLoop params fuel draw.1 draw.2
      (res.1, res.2 + 1)

def generateWithCount (params : WorldGenerationParams) :
    Except GenError GenerationResult × ℕ :=
  generateLoop params params.maxRetries params.seed (PRNG.create params.seed)

/-- `generate(params)`. -/
def generate (params : WorldGenerationParams) :
    Except GenError GenerationResult :=
  (generateWithCount params).1

/-! ### Verification-side notions used to state the claims -/

/-- `b` is an in-bounds Moore (8-)neighbour of the in-bounds cell `a`,
both read as indices of a `width × height` row-major grid. -/
def mooreAdj (width height a b : ℕ) : Prop :=
  a < width * height ∧ b < width * height ∧ a ≠ b ∧
  (((a % width : ℕ) : Int) - ((b % width : ℕ) : Int)).natAbs ≤ 1 ∧
  (((a / width : ℕ) : Int) - ((b / width : ℕ) : Int)).natAbs ≤ 1

instance (width height a b : ℕ) : Decidable (mooreAdj width height a b) := by
  unfold mooreAdj; infer_instance

/-- Reachability along cells accepted by a flood fill's `belongs`
predicate: steps move to a Moore neighbour that belongs to the region. -/
def FloodReach (width height : ℕ) (belongs : ℕ → Bool) : ℕ → ℕ → Prop :=
  Relation.ReflTransGen fun a b => mooreAdj width height a b ∧ belongs b = true

/-- Water-connectivity reachability, as used by sea detection. -/
def SeaReach (width height : ℕ) (terrain : Array ℕ) : ℕ → ℕ → Prop :=
  FloodReach width height fun n => terrain.getD n LAND == WATER

/-- Modelled from the spec: the cell `i` lies on the grid border
("row 0, the last row, column 0, and the last column"). -/
def isBorder (width height i : ℕ) : Prop :=
  i % width = 0 ∨ i / width = 0 ∨ i % width = width - 1 ∨ i / width = height - 1

instance (width height i : ℕ) : Decidable (isBorder width height i) := by
  unfold isBorder; infer_instance

/-- Modelled from the spec: the border cells scanned "in row-major
order", i.e. the row-major cell indices restricted to the border.  Used
to compare the spec's border scan with the source's `seaScanCells`. -/
def borderCellsRowMajor (width height : ℕ) : List ℕ :=
  (List.range (width * height)).filter fun i => decide (isBorder width height i)

/-- The cell `c` is reachable from some `WATER` border cell through
water-connected Moore neighbours (the spec's criterion for belonging to
a sea). -/
def BorderReachable (width height : ℕ) (terrain : Array ℕ) (c : ℕ) : Prop :=
  ∃ s, s < width * height ∧ isBorder width height s ∧
    terrain.getD s LAND = WATER ∧ SeaReach width height terrain s c

/-- Invariant carried through a flood fill, relative to the bitmap
`v₀` and tile set `t₀` the fill started from and a predicate `Good`
closed under region-adjacency (instantiated with reachability from the
fill's seed): every stacked cell is `Good` and in bounds; the bitmap
keeps its size and only grows, and every newly set bit belongs to the
region and is `Good`; the tile set only grows, and every new tile was
freshly marked. -/
def FloodInv (w h : ℕ) (bel : ℕ → Bool) (Good : ℕ → Prop)
    (v₀ : Array ℕ) (t₀ : Finset ℕ) (st : List ℕ × Array ℕ × Finset ℕ) : Prop :=
  (∀ j ∈ st.1, Good j ∧ j < w * h) ∧
  st.2.1.size = v₀.size ∧
  (∀ n, v₀.getD n 0 ≠ 0 → st.2.1.getD n 0 ≠ 0) ∧
  (∀ n, st.2.1.getD n 0 ≠ 0 → v₀.getD n 0 ≠ 0 ∨ (bel n = true ∧ Good n ∧ n < w * h)) ∧
  (∀ n ∈ t₀, n ∈ st.2.2) ∧
  (∀ n ∈ st.2.2, n ∈ t₀ ∨ (v₀.getD n 0 = 0 ∧ st.2.1.getD n 0 ≠ 0))

/-- Invariant carried through the sea border scan, relative to a
predicate `P` satisfied by every scanned cell: the `ocean` bitmap keeps
the grid size, every returned region's tiles are marked and in bounds,
tile sets are pairwise disjoint, and every marked cell is
water-reachable from some scanned `WATER` cell. -/
def SeaScanInv (w h : ℕ) (t : Array ℕ) (P : ℕ → Prop)
    (st : Array ℕ × List SeaProfile × ℕ) : Prop :=
  st.1.size = w * h ∧
  (∀ r ∈ st.2.1, ∀ n ∈ r.tiles, st.1.getD n 0 ≠ 0 ∧ n < w * h) ∧
  List.Pairwise (fun a b => Disjoint a.tiles b.tiles) st.2.1 ∧
  (∀ n, st.1.getD n 0 ≠ 0 →
    ∃ s, P s ∧ t.getD s LAND = WATER ∧ SeaReach w h t s n)

/-- The analogous invariant for the land scan (no reachability clause
is needed by the claims). -/
def LandScanInv (w h : ℕ) (st : Array ℕ × List LandProfile × ℕ) : Prop :=
  st.1.size = w * h ∧
  (∀ r ∈ st.2.1, ∀ n ∈ r.tiles, st.1.getD n 0 ≠ 0 ∧ n < w * h) ∧
  List.Pairwise (fun a b => Disjoint a.tiles b.tiles) st.2.1

instance : DecidableEq (Except GenError GenerationResult) := fun a b =>
  match a, b with
  | .ok x, .ok y =>
    if h : x = y then isTrue (by rw [h]) else isFalse fun hc => h (Except.ok.inj hc)
  | .error x, .error y =>
    if h : x = y then isTrue (by rw [h]) else isFalse fun hc => h (Except.error.inj hc)
  | .ok _, .error _ => isFalse fun hc => Except.noConfusion hc
  | .error _, .ok _ => isFalse fun hc => Except.noConfusion hc

instance : Inhabited GenerationResult :=
  ⟨{ width := 0, height := 0, heights := #[], moisture := #[], types := #[],
     seas := [], lands := [] }⟩

/-! ### Concrete inputs used by counterexamples and witnesses -/

/-- Parameters exhibiting the gap between the land-percent check and
the final grid: a 2 × 2 request whose height map classifies to three
`LAND` cells (fraction `3/4`, within `[0, 3/4]`), after which the sea
pass absorbs the lone `WATER` cell, making the returned grid all
`LAND` (fraction `1 > 3/4`). -/
def C2params : WorldGenerationParams :=
  { seed := 12, width := 2, height := 2, seaLevel := 1/2, noiseRoughess := 9/10,
    minLands := 0, maxLands := ⊤, minSeas := 0, maxSeas := ⊤,
    minPercentLand := 0, maxPercentLand := 3/4,
    minLandSize := 0, maxLandSize := ⊤, minSeaSize := 0, maxSeaSize := ⊤,
    maxRetries := 1, maxSmoothingIterations := 100 }

/-- The result of the only generation attempt for `C2params`. -/
def C2result : GenerationResult :=
  ((generate C2params).toOption).getD default

/-- A 3 × 5 grid whose only `WATER` cells are the interior, mutually
adjacent cells `4 = (1,1)` and `7 = (1,2)`; neither is reachable from
the border through water. -/
def C6grid : Array ℕ :=
  #[1, 1, 1, 1, 0, 1, 1, 0, 1, 1, 1, 1, 1, 1, 1]

/-- Parameters for the orchestrator-exhaustion witness: a tiny request
whose `minLands` can never be met (`10 ^ 9` exceeds the cell count). -/
def C8params : WorldGenerationParams :=
  { seed := 42, width := 2, height := 2, seaLevel := 1/2, noiseRoughess := 9/10,
    minLands := 1000000000, maxLands := ⊤, minSeas := 0, maxSeas := ⊤,
    minPercentLand := 0, maxPercentLand := 1,
    minLandSize := 0, maxLandSize := ⊤, minSeaSize := 0, maxSeaSize := ⊤,
    maxRetries := 3, maxSmoothingIterations := 100 }

end Terrain

end Arda

/-! ## Helper lemmas -/

namespace Arda

/-- Generic preservation of a predicate along a left fold. -/
theorem foldl_preserve {α β : Type} (P : α → Prop) (f : α → β → α) :
    ∀ (l : List β) (a : α), P a → (∀ a b, P a → P (f a b)) → P (l.foldl f a)
  | [], a, ha, _ => ha
  | b :: l, a, ha, hf => foldl_preserve P f l (f a b) (hf a b ha) hf

namespace Noise

theorem clamp01_nonneg (x : ℚ) : 0 ≤ clamp01 x := le_max_left 0 _

theorem clamp01_le_one (x : ℚ) : clamp01 x ≤ 1 :=
  max_le (by norm_num) (min_le_left 1 x)

/-- Every `getD` read (defaulting to `0`) of the clamped field is in `[0,1]`. -/
theorem getD_map_clamp01 (a : Array ℚ) (j : ℕ) :
    0 ≤ (a.map clamp01).getD j 0 ∧ (a.map clamp01).getD j 0 ≤ 1 := by
  unfold Array.getD
  split
  · rename_i h
    simp only [Array.get_eq_getElem, Array.getElem_map]
    exact ⟨clamp01_nonneg _, clamp01_le_one _⟩
  · norm_num

/-- `setQ` with an in-`[0,1]` value preserves the all-reads-in-`[0,1]`
invariant. -/
theorem setA_preserves_unit (a : Array ℚ) (i : ℕ) (v : ℚ)
    (ha : ∀ j, 0 ≤ a.getD j 0 ∧ a.getD j 0 ≤ 1) (hv : 0 ≤ v ∧ v ≤ 1) :
    ∀ j, 0 ≤ (Arda.setA a i v).getD j 0 ∧ (Arda.setA a i v).getD j 0 ≤ 1 := by
  intro j
  unfold Arda.setA
  split
  · rename_i hi
    unfold Array.getD
    split
    · rename_i hj
      have hj' : j < a.size := by simpa using hj
      simp only [Array.get_eq_getElem, Array.getElem_set]
      split
      · exact hv
      · have := ha j
        rw [Array.getD, dif_pos hj'] at this
        simpa using this
    · norm_num
  · exact ha j

theorem getD_mkArray_unit (n j : ℕ) :
    0 ≤ (Array.mkArray n (0 : ℚ)).getD j 0 ∧ (Array.mkArray n (0 : ℚ)).getD j 0 ≤ 1 := by
  unfold Array.getD
  split
  · simp [Array.get_eq_getElem]
  · norm_num

/-- `reshape` only copies values out of `array` (or keeps the zero fill),
so it preserves the unit-interval bound. -/
theorem reshape_unit (array : Array ℚ) (size width height : ℕ)
    (h : ∀ j, 0 ≤ array.getD j 0 ∧ array.getD j 0 ≤ 1) (j : ℕ) :
    0 ≤ (reshape array size width height).getD j 0 ∧
      (reshape array size width height).getD j 0 ≤ 1 := by
  unfold reshape
  refine Arda.foldl_preserve
    (fun slice : Array ℚ => ∀ j, 0 ≤ slice.getD j 0 ∧ slice.getD j 0 ≤ 1) _ _ _
    (getD_mkArray_unit _) ?_ j
  intro a y hPa
  refine Arda.foldl_preserve
    (fun slice : Array ℚ => ∀ j, 0 ≤ slice.getD j 0 ∧ slice.getD j 0 ≤ 1) _ _ _ hPa ?_
  intro a k hPa2
  exact setA_preserves_unit _ _ _ hPa2 (h _)

end Noise

end Arda


/-- **C9.** Every value of the field returned by `diamondSquare` lies in
`[0,1]`, for every seed, roughness, jitter and requested dimensions
(reads are expressed with `getD`, whose out-of-bounds default `0` is
itself in `[0,1]`): the source clamps the whole working field into
`[0,1]` after the rounds, and the reshape only copies clamped values
into a zero-initialized array. -/
theorem C9_diamondSquare_values_in_unit_interval (cfg : Arda.Noise.DSConfig) (j : ℕ) :
    0 ≤ (Arda.Noise.diamondSquare cfg).getD j 0 ∧
      (Arda.Noise.diamondSquare cfg).getD j 0 ≤ 1 := by
  unfold Arda.Noise.diamondSquare
  by_cases hc : Arda.Noise.dsSizeOf cfg = cfg.width ∧ Arda.Noise.dsSizeOf cfg = cfg.height
  · simp only [if_pos hc]
    exact Arda.Noise.getD_map_clamp01 _ _
  · simp only [if_neg hc]
    exact Arda.Noise.reshape_unit _ _ _ _ (Arda.Noise.getD_map_clamp01 _) j

/-- **C1.** The claim says `create(seed)` always returns a stream whose
state lies in `[1, 2147483646]`. The source normalizes `seed % 2147483647`
but then adds `2147483646` to `seed` instead of to `state`, so for
`seed = 0` the returned state is `0`, outside the claimed range; the
following `next` then returns `-1/2147483646`, which is not in `[0,1)`. -/
theorem C1_create_state_out_of_range :
    (Arda.PRNG.create 0).state = 0 ∧
    ¬ (1 ≤ (Arda.PRNG.create 0).state ∧ (Arda.PRNG.create 0).state ≤ 2147483646) ∧
    (Arda.PRNG.next (Arda.PRNG.create 0)).1 < 0 := by
  refine ⟨rfl, by decide, ?_⟩
  norm_num [Arda.PRNG.next, Arda.PRNG.create]

/-! ## Concrete evaluations

The core `Rat` operations are `@[irreducible]`, which blocks the
elaborator-side reduction `decide` performs; the kernel itself reduces
them fine.  The attributes below only restore reducibility locally. -/

section ConcreteEvaluations

attribute [local semireducible] Rat.add Rat.mul Rat.sub Rat.inv

/-- **C2 counterexample.** The claim says the land-percent validation
constrains the terrain grid of the returned result.  For `C2params`
(`maxPercentLand = 3/4`) the single attempt succeeds — the check runs
on the grid produced by classification alone, whose land fraction is
`3/4` — but the returned grid (after smoothing and sea detection, which
absorbs the lone water cell into land) has land fraction `1 > 3/4`. -/
theorem C2_counterexample_final_grid_exceeds_bound :
    (Arda.Terrain.generate Arda.Terrain.C2params).toOption.map
      (fun r => Arda.Terrain.calculateLandPercent r.types) = some 1 ∧
    ¬ ((1 : ℚ) ≤ Arda.Terrain.C2params.maxPercentLand) := by
  exact ⟨by decide, by decide⟩

/-- **C3 counterexample.** On the 1 × 1 all-`WATER` grid, the sea pass
pushes one region whose tile set is empty (the seed of a fill is never
collected unless a neighbour pushes it back), reclassifies the cell to
`LAND`, and the land pass then pushes one region whose tile set is
empty as well: the union of every region tile set of both passes is
`∅`, not the full grid (and no size filtering is involved). -/
theorem C3_counterexample_union_misses_cells :
    ((Arda.Terrain.detectSeas 1 1 #[Arda.Terrain.WATER]).1.map
      (fun s => s.tiles)) = [∅] ∧
    (Arda.Terrain.detectSeas 1 1 #[Arda.Terrain.WATER]).2 =
      #[Arda.Terrain.LAND] ∧
    ((Arda.Terrain.detectLands 1 1
        (Arda.Terrain.detectSeas 1 1 #[Arda.Terrain.WATER]).2).map
      (fun l => l.tiles)) = [∅] := by
  exact ⟨by decide, by decide, by decide⟩

/-- **C4 counterexample.** The 3 × 3 all-`WATER` grid is a single
8-connected border-reachable water component, so the claim demands
exactly one sea region.  The scan has no visited check at the seed, so
all eight border cells push a region: the first fill collects all nine
cells, and the remaining seven border cells push empty regions with
fresh ids. -/
theorem C4_counterexample_revisited_border_cells_push_regions :
    ((Arda.Terrain.detectSeas 3 3 (Array.mkArray 9 Arda.Terrain.WATER)).1.map
      (fun s => (s.id, s.tiles.card))) =
      [(1, 9), (2, 0), (3, 0), (4, 0), (5, 0), (6, 0), (7, 0), (8, 0)] := by
  decide

/-- **C5 counterexample.** On the non-square 2 × 3 grid the scan visits
the indices `[0, 1, 2, 2, 3, 4]` — border cell `5` is never visited and
cell `2` is visited twice — while the spec's row-major border scan
visits every border cell (here, all six cells) exactly once. -/
theorem C5_counterexample_nonsquare_scan_misses_border :
    Arda.Terrain.seaScanCells 2 3 = [0, 1, 2, 2, 3, 4] ∧
    Arda.Terrain.borderCellsRowMajor 2 3 = [0, 1, 2, 3, 4, 5] ∧
    Arda.Terrain.seaScanCells 2 3 ≠ Arda.Terrain.borderCellsRowMajor 2 3 := by
  exact ⟨by decide, by decide, by decide⟩

/-- **C6 counterexample.** On the non-square 3 × 5 grid `C6grid`, cell
`4` is `WATER` and unreachable from any border water cell (the only
other water cell is its interior neighbour `7`), yet the swapped loop
bounds make the scan visit `(x = 4, y = 0)`, i.e. index `4`, seeding a
fill there: cell `4` stays `WATER` after reclassification and sits in a
returned sea region's tile set, contradicting the claim for arbitrary
grids. -/
theorem C6_counterexample_enclosed_water_kept :
    ¬ Arda.Terrain.BorderReachable 3 5 Arda.Terrain.C6grid 4 ∧
    Arda.Terrain.C6grid.getD 4 Arda.Terrain.LAND = Arda.Terrain.WATER ∧
    (Arda.Terrain.detectSeas 3 5 Arda.Terrain.C6grid).2.getD 4 0 =
      Arda.Terrain.WATER ∧
    ∃ r ∈ (Arda.Terrain.detectSeas 3 5 Arda.Terrain.C6grid).1, 4 ∈ r.tiles := by
  refine ⟨?_, by decide, by decide, by decide⟩
  rintro ⟨s, hs, hb, hw, -⟩
  have hcase : ∀ t, t < 3 * 5 →
      Arda.Terrain.C6grid.getD t Arda.Terrain.LAND = Arda.Terrain.WATER →
      t = 4 ∨ t = 7 := by decide
  rcases hcase s hs hw with rfl | rfl
  · exact absurd hb (by decide)
  · exact absurd hb (by decide)

end ConcreteEvaluations

/-! ## Flood-fill invariants -/

namespace Arda

namespace Terrain

/-- Every offset visited by the neighbour loops moves by at most one
cell in each axis and is not the null move. -/
theorem floodOffsets_bounds :
    ∀ d ∈ floodOffsets, d.1.natAbs ≤ 1 ∧ d.2.natAbs ≤ 1 ∧ ¬(d.1 = 0 ∧ d.2 = 0) := by
  decide

theorem mooreAdj_symm {w h a b : ℕ} (hab : mooreAdj w h a b) : mooreAdj w h b a := by
  obtain ⟨ha, hb, hne, hx, hy⟩ := hab
  exact ⟨hb, ha, hne.symm, by omega, by omega⟩

/-- The cell index built by a neighbour visit is Moore-adjacent to the
popped cell. -/
theorem mooreAdj_of_visit {w h i : ℕ} (hi : i < w * h) {d : Int × Int}
    (hd1 : d.1.natAbs ≤ 1) (hd2 : d.2.natAbs ≤ 1) (hd0 : ¬(d.1 = 0 ∧ d.2 = 0))
    (hb : 0 ≤ (i % w : ℕ) + d.1 ∧ 0 ≤ (i / w : ℕ) + d.2 ∧
      (i % w : ℕ) + d.1 < (w : Int) ∧ (i / w : ℕ) + d.2 < (h : Int)) :
    mooreAdj w h i ((((i % w : ℕ) + d.1) + (((i / w : ℕ) + d.2)) * w).toNat) := by
  obtain ⟨h1, h2, h3, h4⟩ := hb
  have hw : 0 < w := by
    rcases Nat.eq_zero_or_pos w with hw | hw
    · subst hw; simp at h3; omega
    · exact hw
  set nx := ((i % w : ℕ) + d.1).toNat with hnx
  set ny := ((i / w : ℕ) + d.2).toNat with hny
  have ha' : ((i % w : ℕ) : Int) + d.1 = (nx : Int) := by omega
  have hb' : ((i / w : ℕ) : Int) + d.2 = (ny : Int) := by omega
  have hxy : (((i % w : ℕ) + d.1) + (((i / w : ℕ) + d.2)) * w).toNat = nx + ny * w := by
    rw [ha', hb', ← Nat.cast_mul, ← Nat.cast_add, Int.toNat_natCast]
  have hnxw : nx < w := by omega
  have hnyh : ny < h := by omega
  have hmod : (nx + ny * w) % w = nx := by
    rw [Nat.add_mul_mod_self_right, Nat.mod_eq_of_lt hnxw]
  have hdiv : (nx + ny * w) / w = ny := by
    rw [Nat.add_mul_div_right _ _ hw, Nat.div_eq_of_lt hnxw, Nat.zero_add]
  have hlt : nx + ny * w < w * h := by
    calc nx + ny * w < w + ny * w := by omega
    _ = (ny + 1) * w := by ring
    _ ≤ h * w := Nat.mul_le_mul_right w (by omega)
    _ = w * h := Nat.mul_comm h w
  rw [hxy]
  refine ⟨hi, hlt, ?_, ?_, ?_⟩
  · intro hcontra
    have e1 : i % w = nx := by rw [hcontra, hmod]
    have e2 : i / w = ny := by rw [hcontra, hdiv]
    exact hd0 ⟨by omega, by omega⟩
  · rw [hmod]; omega
  · rw [hdiv]; omega

end Terrain

end Arda

namespace Arda

theorem setA_size {α : Type} (a : Array α) (i : ℕ) (v : α) :
    (setA a i v).size = a.size := by
  unfold setA
  split <;> simp

theorem getD_setA {α : Type} (a : Array α) (i : ℕ) (v : α) (j : ℕ) (d : α) :
    (setA a i v).getD j d = if j = i ∧ i < a.size then v else a.getD j d := by
  unfold setA
  split
  · rename_i hi
    simp only [Array.getD_eq_get?, Array.get?_set]
    by_cases hij : i = j
    · subst hij
      rw [if_pos rfl, if_pos ⟨rfl, hi⟩]
      rfl
    · rw [if_neg hij, if_neg (by rintro ⟨rfl, -⟩; exact hij rfl)]
  · rename_i hi
    rw [if_neg (by rintro ⟨-, hlt⟩; exact hi hlt)]

namespace Terrain

/-- One neighbour visit preserves the flood invariant, given that the
popped cell `i` is `Good` and in bounds. -/
theorem floodVisit_spec (w h : ℕ) (bel : ℕ → Bool) (Good : ℕ → Prop)
    (hG : ∀ a n, Good a → mooreAdj w h a n → bel n = true → Good n)
    (v₀ : Array ℕ) (t₀ : Finset ℕ) (hv₀ : v₀.size = w * h)
    (i : ℕ) (hGi : Good i) (hi : i < w * h)
    (st : List ℕ × Array ℕ × Finset ℕ)
    (hInv : FloodInv w h bel Good v₀ t₀ st)
    (d : Int × Int) (hd : d ∈ floodOffsets) :
    FloodInv w h bel Good v₀ t₀ (floodVisit w h bel (i % w) (i / w) st d) := by
  obtain ⟨stack, visited, tiles⟩ := st
  obtain ⟨hstack, hsize, hmono, hnew, htmono, htnew⟩ := hInv
  unfold floodVisit
  dsimp only
  split
  · rename_i hbounds
    split
    · rename_i hcond
      obtain ⟨hbel, hunvis⟩ := hcond
      set n := ((((i % w : ℕ) : Int) + d.1) + (((i / w : ℕ) : Int) + d.2) * w).toNat
        with hn
      have hadj : mooreAdj w h i n :=
        mooreAdj_of_visit hi (floodOffsets_bounds d hd).1
          (floodOffsets_bounds d hd).2.1 (floodOffsets_bounds d hd).2.2 hbounds
      have hnlt : n < w * h := hadj.2.1
      have hGn : Good n := hG i n hGi hadj hbel
      have hnv : n < visited.size := by rw [hsize, hv₀]; exact hnlt
      refine ⟨?_, ?_, ?_, ?_, ?_, ?_⟩
      · intro j hj
        rcases List.mem_cons.mp hj with rfl | hj
        · exact ⟨hGn, hnlt⟩
        · exact hstack j hj
      · simpa [Arda.setA_size] using hsize
      · intro p hp
        rw [Arda.getD_setA]
        split
        · simp
        · exact hmono p hp
      · intro p hp
        rw [Arda.getD_setA] at hp
        by_cases hpn : p = n ∧ n < visited.size
        · obtain ⟨rfl, -⟩ := hpn
          exact Or.inr ⟨hbel, hGn, hnlt⟩
        · rw [if_neg hpn] at hp
          exact hnew p hp
      · intro p hp
        exact Finset.mem_insert_of_mem (htmono p hp)
      · intro p hp
        rcases Finset.mem_insert.mp hp with rfl | hp
        · refine Or.inr ⟨?_, ?_⟩
          · by_contra hv
            exact absurd hunvis (hmono _ hv)
          · rw [Arda.getD_setA, if_pos ⟨rfl, hnv⟩]
            simp
        · rcases htnew p hp with hold | ⟨hfresh, hmark⟩
          · exact Or.inl hold
          · refine Or.inr ⟨hfresh, ?_⟩
            rw [Arda.getD_setA]
            split
            · simp
            · exact hmark
    · exact ⟨hstack, hsize, hmono, hnew, htmono, htnew⟩
  · exact ⟨hstack, hsize, hmono, hnew, htmono, htnew⟩

/-- The whole fill preserves the flood invariant (stated with an empty
stack so it describes the returned bitmap and tile set). -/
theorem flood_spec (w h : ℕ) (bel : ℕ → Bool) (Good : ℕ → Prop)
    (hG : ∀ a n, Good a → mooreAdj w h a n → bel n = true → Good n)
    (v₀ : Array ℕ) (t₀ : Finset ℕ) (hv₀ : v₀.size = w * h) :
    ∀ (fuel : ℕ) (stack : List ℕ) (visited : Array ℕ) (tiles : Finset ℕ),
      FloodInv w h bel Good v₀ t₀ (stack, visited, tiles) →
      FloodInv w h bel Good v₀ t₀
        ([], flood w h bel fuel stack visited tiles) := by
  intro fuel
  induction fuel with
  | zero =>
    intro stack visited tiles hInv
    exact ⟨by simp, hInv.2.1, hInv.2.2.1, hInv.2.2.2.1, hInv.2.2.2.2.1,
      hInv.2.2.2.2.2⟩
  | succ fuel ih =>
    intro stack visited tiles hInv
    match stack with
    | [] =>
      exact ⟨by simp, hInv.2.1, hInv.2.2.1, hInv.2.2.2.1, hInv.2.2.2.2.1,
        hInv.2.2.2.2.2⟩
    | i :: stack =>
      obtain ⟨hGi, hi⟩ := hInv.1 i (List.mem_cons_self i stack)
      have hrest : FloodInv w h bel Good v₀ t₀ (stack, visited, tiles) :=
        ⟨fun j hj => hInv.1 j (List.mem_cons_of_mem i hj), hInv.2.1, hInv.2.2.1,
          hInv.2.2.2.1, hInv.2.2.2.2.1, hInv.2.2.2.2.2⟩
      have hfold : FloodInv w h bel Good v₀ t₀
          (floodOffsets.foldl (floodVisit w h bel (i % w) (i / w))
            (stack, visited, tiles)) := by
        refine List.foldlRecOn floodOffsets _ _ hrest ?_
        intro st hst d hd
        exact floodVisit_spec w h bel Good hG v₀ t₀ hv₀ i hGi hi st hst d hd
      exact ih _ _ _ hfold

end Terrain

end Arda

namespace Arda

/-- Like `foldl_preserve`, but the step hypothesis may use membership
of the element in the folded list. -/
theorem foldl_preserve_of_mem {α β : Type} (P : α → Prop) (f : α → β → α) :
    ∀ (l : List β) (a : α), P a → (∀ a b, b ∈ l → P a → P (f a b)) →
      P (l.foldl f a)
  | [], a, ha, _ => ha
  | b :: l, a, ha, hf =>
    foldl_preserve_of_mem P f l (f a b) (hf a b (List.mem_cons_self b l) ha)
      (fun a c hc hPa => hf a c (List.mem_cons_of_mem b hc) hPa)

/-- `getD` at an in-bounds index does not depend on the default. -/
theorem getD_indep {α : Type} (a : Array α) {n : ℕ} (hn : n < a.size)
    (d1 d2 : α) : a.getD n d1 = a.getD n d2 := by
  rw [Array.getD_eq_get?, Array.getD_eq_get?, Array.getElem?_lt a hn]
  rfl

namespace Terrain

/-- A fill whose seed has no in-bounds neighbour accepted by `belongs`
returns its bitmap and tile set unchanged: the seed pops, no neighbour
is pushed, and the stack is empty. -/
theorem flood_no_neighbour (w h : ℕ) (bel : ℕ → Bool) (i : ℕ) (hi : i < w * h)
    (hno : ∀ n, mooreAdj w h i n → bel n = false) :
    ∀ (fuel : ℕ) (visited : Array ℕ) (tiles : Finset ℕ),
      flood w h bel (fuel + 1) [i] visited tiles = (visited, tiles) := by
  intro fuel visited tiles
  have hfold : floodOffsets.foldl (floodVisit w h bel (i % w) (i / w))
      (([] : List ℕ), visited, tiles) = (([] : List ℕ), visited, tiles) := by
    refine Arda.foldl_preserve_of_mem
      (fun st => st = (([] : List ℕ), visited, tiles)) _ _ _ rfl ?_
    intro b d hd hb
    rw [hb]
    unfold floodVisit
    dsimp only
    split
    · rename_i hbounds
      rw [if_neg]
      rintro ⟨hbel, -⟩
      have hadj := mooreAdj_of_visit hi (floodOffsets_bounds d hd).1
        (floodOffsets_bounds d hd).2.1 (floodOffsets_bounds d hd).2.2 hbounds
      rw [hno _ hadj] at hbel
      exact Bool.false_ne_true hbel
    · rfl
  simp only [flood]
  rw [hfold]
  cases fuel <;> simp [flood]

end Terrain

end Arda

namespace Arda

namespace Terrain

/-- Every entry of the clockwise Moore ring moves by at most one cell
per axis and is not the null move. -/
theorem MOORE_bounds :
    ∀ idx < 8, (MOORE_NEIGHBOURHOOD.getD idx (0, 0)).1.natAbs ≤ 1 ∧
      (MOORE_NEIGHBOURHOOD.getD idx (0, 0)).2.natAbs ≤ 1 ∧
      ¬((MOORE_NEIGHBOURHOOD.getD idx (0, 0)).1 = 0 ∧
        (MOORE_NEIGHBOURHOOD.getD idx (0, 0)).2 = 0) := by
  decide

/-- When no Moore neighbour of `(x, y)` matches the target type, one
`trace` step leaves the current cell and the path unchanged (only the
backtrack cell moves). -/
theorem traceStep_no_neighbour (w h : ℕ) (t : Array ℕ) (ty : ℕ) (x y : ℕ)
    (hx : x < w) (hy : y < h)
    (hno : ∀ n, mooreAdj w h (x + y * w) n → t.getD n LAND ≠ ty)
    (s : TraceState) (hpx : s.px = (x : Int)) (hpy : s.py = (y : Int))
    (hpath : s.path = []) :
    (traceStep w h t ty s).px = (x : Int) ∧
    (traceStep w h t ty s).py = (y : Int) ∧
    (traceStep w h t ty s).path = [] := by
  have hw : 0 < w := by omega
  have hc : x + y * w < w * h := by
    calc x + y * w < w + y * w := by omega
    _ = (y + 1) * w := by ring
    _ ≤ h * w := Nat.mul_le_mul_right w (by omega)
    _ = w * h := Nat.mul_comm h w
  have hmodc : (x + y * w) % w = x := by
    rw [Nat.add_mul_mod_self_right, Nat.mod_eq_of_lt hx]
  have hdivc : (x + y * w) / w = y := by
    rw [Nat.add_mul_div_right _ _ hw, Nat.div_eq_of_lt hx, Nat.zero_add]
  unfold traceStep
  dsimp only
  generalize (if s.px > s.bx then 7
    else if s.px < s.bx then 3
    else if s.py > s.bv then 1
    else if s.py < s.bv then 5 else (0 : ℕ)) = offset
  refine Arda.foldl_preserve_of_mem
    (fun st : TraceState × Bool =>
      st.1.px = (x : Int) ∧ st.1.py = (y : Int) ∧ st.1.path = [])
    _ _ _ ⟨hpx, hpy, hpath⟩ ?_
  intro st i hi hP
  obtain ⟨s', broke⟩ := st
  obtain ⟨hP1, hP2, hP3⟩ := hP
  dsimp only at hP1 hP2 hP3
  unfold traceVisit
  dsimp only
  cases broke with
  | true =>
    rw [if_pos rfl]
    exact ⟨hP1, hP2, hP3⟩
  | false =>
    rw [if_neg Bool.false_ne_true]
    split
    · rename_i hcond
      obtain ⟨hvalid, hty⟩ := hcond
      exfalso
      rw [hP1, hP2] at hvalid hty
      set idx := (i + offset) % 8 with hidxdef
      have hidx : idx < 8 := Nat.mod_lt _ (by norm_num)
      obtain ⟨hd1, hd2, hd0⟩ := MOORE_bounds idx hidx
      have hb : 0 ≤ (((x + y * w) % w : ℕ) : Int) +
            (MOORE_NEIGHBOURHOOD.getD idx (0, 0)).1 ∧
          0 ≤ (((x + y * w) / w : ℕ) : Int) +
            (MOORE_NEIGHBOURHOOD.getD idx (0, 0)).2 ∧
          (((x + y * w) % w : ℕ) : Int) +
            (MOORE_NEIGHBOURHOOD.getD idx (0, 0)).1 < (w : Int) ∧
          (((x + y * w) / w : ℕ) : Int) +
            (MOORE_NEIGHBOURHOOD.getD idx (0, 0)).2 < (h : Int) := by
        rw [hmodc, hdivc]
        exact hvalid
      have hadj := mooreAdj_of_visit hc hd1 hd2 hd0 hb
      rw [hmodc, hdivc] at hadj
      exact hno _ hadj hty
    · exact ⟨hP1, hP2, hP3⟩

/-- `trace` at a cell with no matching Moore neighbour returns the
empty path: the first step leaves `P` at the start, which triggers the
termination test. -/
theorem trace_no_neighbour (w h : ℕ) (t : Array ℕ) (ty : ℕ) (x y : ℕ)
    (hx : x < w) (hy : y < h)
    (hno : ∀ n, mooreAdj w h (x + y * w) n → t.getD n LAND ≠ ty) :
    trace x y w h t ty = [] := by
  unfold trace
  rw [show traceFuel w h = (8 * w * h + 7) + 1 from rfl]
  have h3 := traceStep_no_neighbour w h t ty x y hx hy hno
    ⟨x, y, (x : Int) - 1, y, []⟩ rfl rfl rfl
  simp only [traceLoop]
  rw [if_pos ⟨h3.1, h3.2.1⟩]
  exact h3.2.2

end Terrain

end Arda

namespace Arda

/-- A `getD` read that differs from the default is in bounds. -/
theorem lt_size_of_getD_ne {α : Type} {a : Array α} {n : ℕ} {d : α}
    (hne : a.getD n d ≠ d) : n < a.size := by
  by_contra hn
  apply hne
  unfold Array.getD
  rw [dif_neg hn]

namespace Terrain

/-- A cell marked in a bitmap is within the bitmap. -/
theorem lt_size_of_marked {a : Array ℕ} {n : ℕ} (hm : a.getD n 0 ≠ 0) :
    n < a.size :=
  Arda.lt_size_of_getD_ne hm

/-- Size is preserved by the reclassification fold. -/
theorem reclassify_size (f : ℕ → ℕ) :
    ∀ (l : List ℕ) (a : Array ℕ),
      ((l.foldl (fun tt i => Arda.setA tt i (f i)) a)).size = a.size := by
  intro l
  induction l with
  | nil => intro a; rfl
  | cons b l ih =>
    intro a
    rw [List.foldl_cons, ih, Arda.setA_size]

/-- Value of the reclassification fold over `List.range m` at an index
below `m` and within the array. -/
theorem reclassify_getD (f : ℕ → ℕ) :
    ∀ (m : ℕ) (a : Array ℕ) (c : ℕ), c < m → c < a.size →
      ((List.range m).foldl (fun tt i => Arda.setA tt i (f i)) a).getD c 0 =
        f c := by
  intro m
  induction m with
  | zero => intro a c hc; omega
  | succ m ih =>
    intro a c hcm hca
    rw [List.range_succ, List.foldl_append, List.foldl_cons, List.foldl_nil]
    by_cases hc : c = m
    · subst hc
      rw [Arda.getD_setA, if_pos ⟨rfl, by rw [reclassify_size]; exact hca⟩]
    · rw [Arda.getD_setA, if_neg (by rintro ⟨rfl, -⟩; exact hc rfl)]
      exact ih a c (by omega) hca

/-- One step of the sea border scan preserves `SeaScanInv`. -/
theorem seaScanStep_spec (w h : ℕ) (t : Array ℕ) (ht : t.size = w * h)
    (P : ℕ → Prop) (st : Array ℕ × List SeaProfile × ℕ) (i : ℕ) (hPi : P i)
    (hInv : SeaScanInv w h t P st) :
    SeaScanInv w h t P (seaScanStep w h t st i) := by
  obtain ⟨hsize, htiles, hdisj, hreach⟩ := hInv
  unfold seaScanStep
  split
  · exact ⟨hsize, htiles, hdisj, hreach⟩
  · rename_i hwater
    unfold seaFlood
    dsimp only
    have hbel : t.getD i LAND = WATER := by
      by_contra hne
      exact hwater hne
    have hiw : i < w * h := by
      rw [← ht]
      exact Arda.lt_size_of_getD_ne (by rw [hbel]; decide)
    have hflood := flood_spec w h (fun n => t.getD n LAND == WATER)
      (SeaReach w h t i)
      (fun a n hGa hadj hbn =>
        Relation.ReflTransGen.tail hGa ⟨hadj, hbn⟩)
      st.1 ∅ (by rw [hsize]) (w * h + 1) [i] st.1 ∅
      ⟨by
        intro j hj
        rcases List.mem_singleton.mp hj with rfl
        exact ⟨Relation.ReflTransGen.refl, hiw⟩,
       rfl, fun n hn => hn, fun n hn => Or.inl hn, by simp, by simp⟩
    obtain ⟨-, hfsize, hfmono, hfnew, -, hftiles⟩ := hflood
    dsimp only at hfsize hfmono hfnew hftiles
    refine ⟨by rw [hfsize, hsize], ?_, ?_, ?_⟩
    · intro r hr n hn
      rcases List.mem_append.mp hr with hr | hr
      · obtain ⟨hm, hb⟩ := htiles r hr n hn
        exact ⟨hfmono n hm, hb⟩
      · rcases List.mem_singleton.mp hr with rfl
        rcases hftiles n hn with hn0 | ⟨-, hm⟩
        · exact absurd hn0 (Finset.not_mem_empty n)
        · refine ⟨hm, ?_⟩
          have := lt_size_of_marked hm
          rw [hfsize, hsize] at this
          exact this
    · rw [List.pairwise_append]
      refine ⟨hdisj, List.pairwise_singleton _ _, ?_⟩
      intro a ha b hb
      rcases List.mem_singleton.mp hb with rfl
      rw [Finset.disjoint_left]
      intro x hxa hxb
      rcases hftiles x hxb with hx0 | ⟨hfresh, -⟩
      · exact Finset.not_mem_empty x hx0
      · exact absurd ((htiles a ha x hxa).1) (by rw [hfresh]; exact fun hk => hk rfl)
    · intro n hn
      rcases hfnew n hn with hold | ⟨hbn, hGn, -⟩
      · exact hreach n hold
      · exact ⟨i, hPi, hbel, hGn⟩

/-- The whole sea border scan preserves `SeaScanInv`. -/
theorem seaScan_spec (w h : ℕ) (t : Array ℕ) (ht : t.size = w * h)
    (P : ℕ → Prop) :
    ∀ (L : List ℕ), (∀ i ∈ L, P i) →
    ∀ (st : Array ℕ × List SeaProfile × ℕ), SeaScanInv w h t P st →
      SeaScanInv w h t P (L.foldl (seaScanStep w h t) st) := by
  intro L hL st hst
  refine Arda.foldl_preserve_of_mem (SeaScanInv w h t P) _ L st hst ?_
  intro a b hb ha
  exact seaScanStep_spec w h t ht P a b (hL b hb) ha

end Terrain

end Arda

namespace Arda

theorem flatMap_congr_mem {α β : Type} (f g : α → List β) :
    ∀ (l : List α), (∀ a ∈ l, f a = g a) → l.flatMap f = l.flatMap g
  | [], _ => rfl
  | b :: l, hfg => by
    rw [List.flatMap_cons, List.flatMap_cons,
      hfg b (List.mem_cons_self b l),
      flatMap_congr_mem f g l (fun a ha => hfg a (List.mem_cons_of_mem b ha))]

/-- Row-major decomposition of `List.range (a * b)` into rows. -/
theorem range_mul_flatMap (a b : ℕ) :
    List.range (a * b) =
      (List.range a).flatMap fun y => (List.range b).map fun x => x + y * b := by
  induction a with
  | zero => simp
  | succ a ih =>
    rw [List.range_succ, List.flatMap_append, ← ih, Nat.succ_mul, List.range_add]
    simp only [List.flatMap_cons, List.flatMap_nil, List.append_nil]
    congr 1
    exact List.map_congr_left fun x _ => Nat.add_comm (a * b) x

end Arda

/-- For square grids, the swapped-bounds scan list coincides with the
spec's row-major border list. -/
theorem seaScanCells_square_eq_border (n : ℕ) :
    Arda.Terrain.seaScanCells n n = Arda.Terrain.borderCellsRowMajor n n := by
  unfold Arda.Terrain.seaScanCells Arda.Terrain.borderCellsRowMajor
  rw [Arda.range_mul_flatMap n n, List.filter_flatMap]
  apply Arda.flatMap_congr_mem
  intro y hy
  have hyn : y < n := List.mem_range.mp hy
  rw [List.filter_map]
  congr 1
  apply List.filter_congr
  intro x hx
  have hxn : x < n := List.mem_range.mp hx
  have hmod : (x + y * n) % n = x := by
    rw [Nat.add_mul_mod_self_right, Nat.mod_eq_of_lt hxn]
  have hdiv : (x + y * n) / n = y := by
    rw [Nat.add_mul_div_right _ _ (by omega), Nat.div_eq_of_lt hxn, Nat.zero_add]
  simp only [Function.comp, decide_eq_decide]
  unfold Arda.Terrain.isBorder
  rw [hmod, hdiv]
  omega

/-- **C5 (amended).** The border scan swaps the roles of width and
height in its loop bounds; for square grids this is harmless, and the
scan of `detectSeas` visits exactly the border cells (row 0, last row,
column 0, last column) in row-major order.  (For non-square grids the
claim fails; see the counterexample.) -/
theorem C5_amended_square_scan_is_border_row_major (n : ℕ) :
    Arda.Terrain.seaScanCells n n = Arda.Terrain.borderCellsRowMajor n n :=
  seaScanCells_square_eq_border n

/-- **C6 (amended).** For square grids, a `WATER` cell not reachable
from any border cell through 8-connected water is reclassified to
`LAND` by `detectSeas` and appears in no returned sea region's tile
set.  (For non-square grids the claim fails because the swapped scan
bounds can seed a fill at an interior cell; see the counterexample.) -/
theorem C6_amended_square_enclosed_water_absorbed
    (w : ℕ) (t : Array ℕ) (ht : t.size = w * w) (c : ℕ) (hc : c < w * w)
    (hwater : t.getD c Arda.Terrain.LAND = Arda.Terrain.WATER)
    (hunreach : ¬ Arda.Terrain.BorderReachable w w t c) :
    (Arda.Terrain.detectSeas w w t).2.getD c 0 = Arda.Terrain.LAND ∧
    ∀ r ∈ (Arda.Terrain.detectSeas w w t).1, c ∉ r.tiles := by
  have hinv0 : Arda.Terrain.SeaScanInv w w t (· ∈ Arda.Terrain.seaScanCells w w)
      (Array.mkArray (w * w) 0, [], 1) := by
    refine ⟨by simp, by simp, List.Pairwise.nil, ?_⟩
    intro n hn
    exfalso
    apply hn
    unfold Array.getD
    split <;> simp
  have hscan := Arda.Terrain.seaScan_spec w w t ht _
    (Arda.Terrain.seaScanCells w w) (fun i hi => hi) _ hinv0
  obtain ⟨hsize, htiles, hdisj, hreach⟩ := hscan
  have hcmark : ((Arda.Terrain.seaScanCells w w).foldl
      (Arda.Terrain.seaScanStep w w t)
      (Array.mkArray (w * w) 0, [], 1)).1.getD c 0 = 0 := by
    by_contra hm
    obtain ⟨s, hsP, hsw, hsr⟩ := hreach c hm
    refine hunreach ⟨s, ?_, ?_, hsw, hsr⟩
    · rw [← ht]
      exact Arda.lt_size_of_getD_ne (by rw [hsw]; decide)
    · rw [seaScanCells_square_eq_border] at hsP
      unfold Arda.Terrain.borderCellsRowMajor at hsP
      have := (List.mem_filter.mp hsP).2
      exact of_decide_eq_true this
  constructor
  · unfold Arda.Terrain.detectSeas
    dsimp only
    rw [Arda.Terrain.reclassify_getD _ t.size t c (ht ▸ hc) (ht ▸ hc)]
    rw [if_neg (by rw [hcmark]; exact fun hk => hk rfl)]
  · intro r hr hcr
    unfold Arda.Terrain.detectSeas at hr
    dsimp only at hr
    exact absurd ((htiles r hr c hcr).1) (by rw [hcmark]; exact fun hk => hk rfl)

/-- Witness for C6 (amended): the 3 × 3 grid whose only water cell is
the enclosed centre `4`. -/
theorem C6_amended_witness :
    ¬ Arda.Terrain.BorderReachable 3 3 #[1, 1, 1, 1, 0, 1, 1, 1, 1] 4 ∧
    ((Arda.Terrain.detectSeas 3 3 #[1, 1, 1, 1, 0, 1, 1, 1, 1]).2.getD 4 0 =
        Arda.Terrain.LAND ∧
      ∀ r ∈ (Arda.Terrain.detectSeas 3 3 #[1, 1, 1, 1, 0, 1, 1, 1, 1]).1,
        4 ∉ r.tiles) := by
  have hunreach :
      ¬ Arda.Terrain.BorderReachable 3 3 #[1, 1, 1, 1, 0, 1, 1, 1, 1] 4 := by
    rintro ⟨s, hs, hb, hw, -⟩
    have honly : ∀ u, u < 3 * 3 →
        (#[1, 1, 1, 1, 0, 1, 1, 1, 1] : Array ℕ).getD u Arda.Terrain.LAND =
          Arda.Terrain.WATER → u = 4 := by decide
    rcases honly s hs hw with rfl
    exact absurd hb (by decide)
  exact ⟨hunreach, C6_amended_square_enclosed_water_absorbed 3
    #[1, 1, 1, 1, 0, 1, 1, 1, 1] (by decide) 4
    (by decide) (by decide) hunreach⟩

namespace Arda

namespace Terrain

/-- `seaScanStep` on a non-water cell is a no-op. -/
theorem seaScanStep_skip {w h : ℕ} {t : Array ℕ} {i : ℕ}
    (hskip : t.getD i LAND ≠ WATER) (st : Array ℕ × List SeaProfile × ℕ) :
    seaScanStep w h t st i = st := by
  unfold seaScanStep
  rw [if_pos hskip]

/-- `seaScanStep` on a water cell runs the fill and appends one region. -/
theorem seaScanStep_push {w h : ℕ} {t : Array ℕ} {i : ℕ}
    (hbel : t.getD i LAND = WATER) (st : Array ℕ × List SeaProfile × ℕ) :
    seaScanStep w h t st i =
      ((seaFlood w h t (w * h + 1) [i] st.1 ∅).1,
        st.2.1 ++ [⟨st.2.2, (seaFlood w h t (w * h + 1) [i] st.1 ∅).2⟩],
        st.2.2 + 1) := by
  unfold seaScanStep
  rw [if_neg (not_not.mpr hbel)]

/-- The sea scan appends exactly one region per scanned `WATER` cell,
with consecutive ids. -/
theorem seaScan_count_ids (w h : ℕ) (t : Array ℕ) :
    ∀ (L : List ℕ) (st : Array ℕ × List SeaProfile × ℕ),
      st.2.2 = st.2.1.length + 1 →
      st.2.1.map SeaProfile.id = List.range' 1 st.2.1.length →
      (L.foldl (seaScanStep w h t) st).2.1.length =
        st.2.1.length +
          (L.filter fun i => decide (t.getD i LAND = WATER)).length ∧
      (L.foldl (seaScanStep w h t) st).2.1.map SeaProfile.id =
        List.range' 1 (L.foldl (seaScanStep w h t) st).2.1.length := by
  intro L
  induction L with
  | nil =>
    intro st hid hmap
    exact ⟨by simp, by simpa using hmap⟩
  | cons i L ih =>
    intro st hid hmap
    rw [List.foldl_cons]
    by_cases hbel : t.getD i LAND = WATER
    case neg =>
      rw [List.filter_cons_of_neg (by simpa using hbel), seaScanStep_skip hbel]
      exact ih st hid hmap
    case pos =>
      rw [List.filter_cons_of_pos (by simpa using hbel), seaScanStep_push hbel]
      have hlen : (st.2.1 ++ [⟨st.2.2, (seaFlood w h t (w * h + 1) [i] st.1 ∅).2⟩] :
          List SeaProfile).length = st.2.1.length + 1 := by
        simp
      have hid' : st.2.2 + 1 = (st.2.1 ++
          [(⟨st.2.2, (seaFlood w h t (w * h + 1) [i] st.1 ∅).2⟩ : SeaProfile)]).length + 1 := by
        rw [hlen, hid]
      have hmap' : (st.2.1 ++
            [(⟨st.2.2, (seaFlood w h t (w * h + 1) [i] st.1 ∅).2⟩ : SeaProfile)]).map
            SeaProfile.id =
          List.range' 1 (st.2.1 ++
            [(⟨st.2.2, (seaFlood w h t (w * h + 1) [i] st.1 ∅).2⟩ : SeaProfile)]).length := by
        rw [List.map_append, hmap, hlen, List.range'_1_concat, hid]
        simp [Nat.add_comm]
      have := ih ((seaFlood w h t (w * h + 1) [i] st.1 ∅).1,
        st.2.1 ++ [⟨st.2.2, (seaFlood w h t (w * h + 1) [i] st.1 ∅).2⟩],
        st.2.2 + 1) hid' hmap'
      refine ⟨?_, this.2⟩
      rw [this.1]
      dsimp only
      rw [hlen]
      simp only [List.length_cons]
      ring

end Terrain

end Arda

/-- **C4 (amended).** `detectSeas` pushes exactly one region per
scanned cell that reads `WATER` at scan time — there is no visited
check at the seed, so a border water cell of an already-flooded
component still pushes a (empty-tiled) region — and region ids are the
consecutive integers `1, 2, …` in scan order. -/
theorem C4_amended_one_region_per_scanned_water_cell
    (w h : ℕ) (t : Array ℕ) :
    (Arda.Terrain.detectSeas w h t).1.length =
      ((Arda.Terrain.seaScanCells w h).filter
        (fun i => decide (t.getD i Arda.Terrain.LAND = Arda.Terrain.WATER))).length ∧
    (Arda.Terrain.detectSeas w h t).1.map Arda.Terrain.SeaProfile.id =
      List.range' 1 ((Arda.Terrain.detectSeas w h t).1).length := by
  unfold Arda.Terrain.detectSeas
  dsimp only
  have := Arda.Terrain.seaScan_count_ids w h t (Arda.Terrain.seaScanCells w h)
    (Array.mkArray (w * h) 0, [], 1) (by simp) (by simp)
  refine ⟨?_, this.2⟩
  rw [this.1]
  simp

namespace Arda

namespace Terrain

/-- One step of the land scan preserves `LandScanInv`. -/
theorem landScanStep_spec (w h : ℕ) (t : Array ℕ) (ht : t.size = w * h)
    (st : Array ℕ × List LandProfile × ℕ) (i : ℕ)
    (hInv : LandScanInv w h st) : LandScanInv w h (landScanStep w h t st i) := by
  obtain ⟨hsize, htiles, hdisj⟩ := hInv
  unfold landScanStep
  split
  · exact ⟨hsize, htiles, hdisj⟩
  · split
    · exact ⟨hsize, htiles, hdisj⟩
    · rename_i hland hseen
      unfold landFlood
      dsimp only
      have hiw : i < w * h := by
        rw [← ht]
        by_contra hge
        apply hland
        unfold Array.getD
        rw [dif_neg (by omega)]
      have hflood := flood_spec w h (fun n => t.getD n WATER != WATER)
        (fun _ => True) (fun a n _ _ _ => trivial)
        st.1 ∅ (by rw [hsize]) (w * h + 1) [i] st.1 ∅
        ⟨by
          intro j hj
          rcases List.mem_singleton.mp hj with rfl
          exact ⟨trivial, hiw⟩,
         rfl, fun n hn => hn, fun n hn => Or.inl hn, by simp, by simp⟩
      obtain ⟨-, hfsize, hfmono, -, -, hftiles⟩ := hflood
      dsimp only at hfsize hfmono hftiles
      refine ⟨by rw [hfsize, hsize], ?_, ?_⟩
      · intro r hr n hn
        rcases List.mem_append.mp hr with hr | hr
        · obtain ⟨hm, hb⟩ := htiles r hr n hn
          exact ⟨hfmono n hm, hb⟩
        · rcases List.mem_singleton.mp hr with rfl
          rcases hftiles n hn with hn0 | ⟨-, hm⟩
          · exact absurd hn0 (Finset.not_mem_empty n)
          · refine ⟨hm, ?_⟩
            have := lt_size_of_marked hm
            rw [hfsize, hsize] at this
            exact this
      · rw [List.pairwise_append]
        refine ⟨hdisj, List.pairwise_singleton _ _, ?_⟩
        intro a ha b hb
        rcases List.mem_singleton.mp hb with rfl
        rw [Finset.disjoint_left]
        intro x hxa hxb
        rcases hftiles x hxb with hx0 | ⟨hfresh, -⟩
        · exact Finset.not_mem_empty x hx0
        · exact absurd ((htiles a ha x hxa).1)
            (by rw [hfresh]; exact fun hk => hk rfl)

/-- The reclassified terrain returned by `detectSeas` keeps the grid
size. -/
theorem detectSeas_terrain_size (w h : ℕ) (t : Array ℕ) :
    (detectSeas w h t).2.size = t.size := by
  unfold detectSeas
  dsimp only
  rw [reclassify_size]

end Terrain

end Arda

/-- **C3 (amended).** Tile sets of regions of the same detection pass
are pairwise disjoint and contained in the grid.  (The union over a
pass can be a proper subset of the grid — a fill's seed is collected
only when a neighbour pushes it back — so the partition equality of the
original claim fails; see the counterexample.) -/
theorem C3_amended_pass_tiles_disjoint_and_in_grid
    (w h : ℕ) (t : Array ℕ) (ht : t.size = w * h) :
    List.Pairwise (fun a b => Disjoint a.tiles b.tiles)
      (Arda.Terrain.detectSeas w h t).1 ∧
    (∀ r ∈ (Arda.Terrain.detectSeas w h t).1, ∀ n ∈ r.tiles, n < w * h) ∧
    List.Pairwise (fun a b => Disjoint a.tiles b.tiles)
      (Arda.Terrain.detectLands w h (Arda.Terrain.detectSeas w h t).2) ∧
    (∀ r ∈ Arda.Terrain.detectLands w h (Arda.Terrain.detectSeas w h t).2,
      ∀ n ∈ r.tiles, n < w * h) := by
  have hsea : Arda.Terrain.SeaScanInv w h t (fun _ => True)
      ((Arda.Terrain.seaScanCells w h).foldl (Arda.Terrain.seaScanStep w h t)
        (Array.mkArray (w * h) 0, [], 1)) := by
    refine Arda.Terrain.seaScan_spec w h t ht _ _ (fun _ _ => trivial) _
      ⟨by simp, by simp, List.Pairwise.nil, ?_⟩
    intro n hn
    exfalso
    apply hn
    unfold Array.getD
    split <;> simp
  have ht2 : (Arda.Terrain.detectSeas w h t).2.size = w * h := by
    rw [Arda.Terrain.detectSeas_terrain_size, ht]
  have hland : Arda.Terrain.LandScanInv w h
      ((Arda.Terrain.landScanCells w h).foldl
        (Arda.Terrain.landScanStep w h (Arda.Terrain.detectSeas w h t).2)
        (Array.mkArray (w * h) 0, [], 0)) := by
    refine Arda.foldl_preserve (Arda.Terrain.LandScanInv w h) _ _ _
      ⟨by simp, by simp, List.Pairwise.nil⟩ ?_
    intro a b hPa
    exact Arda.Terrain.landScanStep_spec w h _ ht2 a b hPa
  refine ⟨?_, ?_, ?_, ?_⟩
  · have := hsea.2.2.1
    unfold Arda.Terrain.detectSeas
    dsimp only
    exact this
  · have := hsea.2.1
    unfold Arda.Terrain.detectSeas
    dsimp only
    intro r hr n hn
    exact (this r hr n hn).2
  · have := hland.2.2
    unfold Arda.Terrain.detectLands
    exact this
  · have := hland.2.1
    unfold Arda.Terrain.detectLands
    intro r hr n hn
    exact (this r hr n hn).2

/-- Witness for C3 (amended) on a concrete 2 × 2 grid with one land
and one water component. -/
theorem C3_amended_witness :
    List.Pairwise (fun a b => Disjoint a.tiles b.tiles)
      (Arda.Terrain.detectSeas 2 2 #[0, 1, 1, 0]).1 ∧
    (∀ r ∈ (Arda.Terrain.detectSeas 2 2 #[0, 1, 1, 0]).1,
      ∀ n ∈ r.tiles, n < 2 * 2) ∧
    List.Pairwise (fun a b => Disjoint a.tiles b.tiles)
      (Arda.Terrain.detectLands 2 2 (Arda.Terrain.detectSeas 2 2 #[0, 1, 1, 0]).2) ∧
    (∀ r ∈ Arda.Terrain.detectLands 2 2
        (Arda.Terrain.detectSeas 2 2 #[0, 1, 1, 0]).2,
      ∀ n ∈ r.tiles, n < 2 * 2) :=
  C3_amended_pass_tiles_disjoint_and_in_grid 2 2 #[0, 1, 1, 0] rfl

namespace Arda

namespace Terrain

/-- Each scan step appends at most one region. -/
theorem landScan_length_le (w h : ℕ) (t : Array ℕ) :
    ∀ (L : List ℕ) (st : Array ℕ × List LandProfile × ℕ),
      ((L.foldl (landScanStep w h t) st).2.1).length ≤ st.2.1.length + L.length := by
  intro L
  induction L with
  | nil => intro st; simp
  | cons i L ih =>
    intro st
    rw [List.foldl_cons]
    have hstep : (landScanStep w h t st i).2.1.length ≤ st.2.1.length + 1 := by
      unfold landScanStep
      split
      · omega
      · split
        · omega
        · dsimp only
          rw [List.length_append]
          simp
    have := ih (landScanStep w h t st i)
    simp only [List.length_cons]
    omega

theorem landScanCells_length (w h : ℕ) :
    (landScanCells w h).length = w * h := by
  unfold landScanCells
  rw [← Arda.range_mul_flatMap h w, List.length_range, Nat.mul_comm]

/-- A grid yields at most one land region per cell. -/
theorem detectLands_length_le (w h : ℕ) (t : Array ℕ) :
    (detectLands w h t).length ≤ w * h := by
  unfold detectLands
  have := landScan_length_le w h t (landScanCells w h)
    (Array.mkArray (w * h) 0, [], 0)
  rw [landScanCells_length] at this
  simpa using this

/-- A size filter over the detected lands cannot reach a bound above
the cell count. -/
theorem filtered_lands_length_lt {w h : ℕ} {t : Array ℕ}
    {q : LandProfile → Bool} {m : ℕ} (hm : w * h < m) :
    ((detectLands w h t).filter q).length < m := by
  have h1 := List.length_filter_le q (detectLands w h t)
  have h2 := detectLands_length_le w h t
  omega

/-- With `minLands` above the cell count no attempt can succeed: every
run of `generateUnsafe` throws some `TerrainGenerationError`. -/
theorem generateUnsafe_isError (p : WorldGenerationParams)
    (himp : p.width * p.height < p.minLands) :
    ∀ r, generateUnsafe p ≠ Except.ok r := by
  intro r h
  unfold generateUnsafe at h
  dsimp only at h
  split_ifs at h with h1 h2 h3 h4 h5 h6 <;> try exact Except.noConfusion h
  exact h5 (filtered_lands_length_lt himp)

/-- With no attempt able to succeed, the retry loop consumes all its
fuel, counting one `generateUnsafe` run per unit, and ends in the
exhaustion error. -/
theorem generateLoop_exhausts (p : WorldGenerationParams)
    (hfail : ∀ s : Int, ∀ r, generateUnsafe { p with seed := s } ≠ Except.ok r) :
    ∀ (fuel : ℕ) (s : Int) (rng : RNG),
      generateLoop p fuel s rng =
        (.error (.couldNotGenerate p.maxRetries), fuel) := by
  intro fuel
  induction fuel with
  | zero => intro s rng; rfl
  | succ fuel ih =>
    intro s rng
    cases hE : generateUnsafe { p with seed := s } with
    | ok r => exact absurd hE (hfail s r)
    | error e =>
      simp only [generateLoop, hE]
      rw [ih]

end Terrain

end Arda

/-- **C8.** With `maxRetries = 3` and constraints that no attempt can
satisfy (`minLands` exceeding the number of grid cells, e.g. `10^9` on
any real grid), `generate` runs `generateUnsafe` exactly three times
and then fails with the exhaustion error `Could not generate terrain in
3 tries`; no partial result is returned. -/
theorem C8_generate_exhausts_after_exactly_three_attempts
    (p : Arda.Terrain.WorldGenerationParams) (h3 : p.maxRetries = 3)
    (himp : p.width * p.height < p.minLands) :
    Arda.Terrain.generateWithCount p =
      (.error (.couldNotGenerate 3), 3) ∧
    Arda.Terrain.generate p = .error (.couldNotGenerate 3) := by
  have hfail : ∀ s : Int, ∀ r,
      Arda.Terrain.generateUnsafe { p with seed := s } ≠ Except.ok r := by
    intro s
    exact Arda.Terrain.generateUnsafe_isError _ himp
  have hcount : Arda.Terrain.generateWithCount p =
      (.error (.couldNotGenerate 3), 3) := by
    unfold Arda.Terrain.generateWithCount
    rw [Arda.Terrain.generateLoop_exhausts p hfail, h3]
  exact ⟨hcount, by unfold Arda.Terrain.generate; rw [hcount]⟩

/-- Witness for C8 at the concrete impossible parameters `C8params`. -/
theorem C8_witness :
    Arda.Terrain.C8params.maxRetries = 3 ∧
    Arda.Terrain.C8params.width * Arda.Terrain.C8params.height <
      Arda.Terrain.C8params.minLands ∧
    Arda.Terrain.generateWithCount Arda.Terrain.C8params =
      (.error (.couldNotGenerate 3), 3) ∧
    Arda.Terrain.generate Arda.Terrain.C8params =
      .error (.couldNotGenerate 3) :=
  ⟨rfl, by decide,
    (C8_generate_exhausts_after_exactly_three_attempts
      Arda.Terrain.C8params rfl (by decide)).1,
    (C8_generate_exhausts_after_exactly_three_attempts
      Arda.Terrain.C8params rfl (by decide)).2⟩

namespace Arda

namespace Terrain

/-- On any successful attempt, the land-percent bounds hold for the
grid produced by classification alone (the returned `heights` field is
exactly the height map that grid is classified from). -/
theorem generateUnsafe_ok_intermediate_percent
    (p : WorldGenerationParams) (r : GenerationResult)
    (h : generateUnsafe p = .ok r) :
    p.minPercentLand ≤ calculateLandPercent
      (createFromHeightMap p.width p.height r.heights p.seaLevel) ∧
    calculateLandPercent
      (createFromHeightMap p.width p.height r.heights p.seaLevel) ≤
      p.maxPercentLand := by
  unfold generateUnsafe at h
  dsimp only at h
  split_ifs at h with h1 h2 h3 h4 h5 h6 <;> try exact Except.noConfusion h
  have hr := (Except.ok.injEq _ _).mp h
  rw [← hr]
  exact ⟨le_of_not_lt h1, le_of_not_lt h2⟩

/-- A successful `generate` comes from a successful `generateUnsafe`
run with some seed (all other parameters unchanged). -/
theorem generateLoop_fst_ok (p : WorldGenerationParams) :
    ∀ (fuel : ℕ) (s : Int) (rng : RNG) (r : GenerationResult),
      (generateLoop p fuel s rng).1 = .ok r →
      ∃ s', generateUnsafe { p with seed := s' } = .ok r := by
  intro fuel
  induction fuel with
  | zero =>
    intro s rng r h
    exact absurd h (by simp [generateLoop])
  | succ fuel ih =>
    intro s rng r h
    cases hE : generateUnsafe { p with seed := s } with
    | ok r0 =>
      simp only [generateLoop, hE] at h
      exact ⟨s, by rw [hE, h]⟩
    | error e =>
      simp only [generateLoop, hE] at h
      exact ih _ _ r h

end Terrain

end Arda

/-- **C2 (amended).** The land-percent validation constrains the grid
produced by classification alone (`createFromHeightMap` of the returned
height field), before smoothing and sea detection: whenever `generate`
returns successfully, that intermediate grid's land fraction lies
within `[minPercentLand, maxPercentLand]`.  The returned final grid's
land fraction may lie outside the bounds (see the counterexample). -/
theorem C2_amended_percent_checked_on_classification_grid
    (p : Arda.Terrain.WorldGenerationParams) (r : Arda.Terrain.GenerationResult)
    (h : Arda.Terrain.generate p = .ok r) :
    p.minPercentLand ≤ Arda.Terrain.calculateLandPercent
      (Arda.Terrain.createFromHeightMap p.width p.height r.heights p.seaLevel) ∧
    Arda.Terrain.calculateLandPercent
      (Arda.Terrain.createFromHeightMap p.width p.height r.heights p.seaLevel) ≤
      p.maxPercentLand := by
  unfold Arda.Terrain.generate Arda.Terrain.generateWithCount at h
  obtain ⟨s', hs'⟩ := Arda.Terrain.generateLoop_fst_ok p p.maxRetries p.seed
    (Arda.PRNG.create p.seed) r h
  have hc := Arda.Terrain.generateUnsafe_ok_intermediate_percent _ r hs'
  dsimp only at hc
  exact hc

section ConcreteWitnesses

attribute [local semireducible] Rat.add Rat.mul Rat.sub Rat.inv

/-- Witness for C2 (amended) at the concrete parameters `C2params`
(whose single attempt succeeds). -/
theorem C2_amended_witness :
    Arda.Terrain.C2params.minPercentLand ≤ Arda.Terrain.calculateLandPercent
      (Arda.Terrain.createFromHeightMap Arda.Terrain.C2params.width
        Arda.Terrain.C2params.height Arda.Terrain.C2result.heights
        Arda.Terrain.C2params.seaLevel) ∧
    Arda.Terrain.calculateLandPercent
      (Arda.Terrain.createFromHeightMap Arda.Terrain.C2params.width
        Arda.Terrain.C2params.height Arda.Terrain.C2result.heights
        Arda.Terrain.C2params.seaLevel) ≤
      Arda.Terrain.C2params.maxPercentLand :=
  C2_amended_percent_checked_on_classification_grid Arda.Terrain.C2params
    Arda.Terrain.C2result (by decide)

end ConcreteWitnesses

namespace Arda

/-- Like `foldl_preserve`, but with a second predicate `Q` established
by the step at a designated element `c` of the list and preserved from
then on. -/
theorem foldl_mem_establish {α β : Type} (P Q : α → Prop) (f : α → β → α)
    (c : β) (hP : ∀ a b, P a → P (f a b)) (hQ : ∀ a b, Q a → Q (f a b))
    (hPQ : ∀ a, P a → Q (f a c)) :
    ∀ (l : List β) (a : α), c ∈ l → P a → Q (l.foldl f a) := by
  intro l
  induction l with
  | nil =>
    intro a hc hPa
    simp at hc
  | cons b l ih =>
    intro a hc hPa
    rw [List.foldl_cons]
    rcases List.mem_cons.mp hc with rfl | hcl
    · exact foldl_preserve Q f l (f a c) (hPQ a hPa) hQ
    · exact ih (f a b) hcl (hP a b hPa)

namespace Terrain

/-- Every cell of a `width × height` grid is scanned by `detectLands`. -/
theorem mem_landScanCells {w h c : ℕ} (hc : c < w * h) :
    c ∈ landScanCells w h := by
  unfold landScanCells
  rw [← Arda.range_mul_flatMap h w]
  exact List.mem_range.mpr (by rw [Nat.mul_comm]; exact hc)

/-- A scan step never removes an already-pushed land region. -/
theorem landScanStep_mono (w h : ℕ) (t : Array ℕ)
    (st : Array ℕ × List LandProfile × ℕ) (j : ℕ) (r : LandProfile)
    (hr : r ∈ st.2.1) : r ∈ (landScanStep w h t st j).2.1 := by
  unfold landScanStep
  split
  · exact hr
  · split
    · exact hr
    · dsimp only
      exact List.mem_append_left _ hr

/-- No flood path of the land fill reaches an isolated land cell `c`
from a different non-`WATER` seed: the final step would depart from one
of `c`'s Moore neighbours, which are all `WATER` and hence rejected by
the fill (or are the seed itself, which is non-`WATER`). -/
theorem no_reach_isolated (w h : ℕ) (t : Array ℕ) (c j : ℕ)
    (hno : ∀ n, mooreAdj w h c n → t.getD n WATER = WATER)
    (hjw : t.getD j WATER ≠ WATER) (hjc : j ≠ c) :
    ¬ FloodReach w h (fun n => t.getD n WATER != WATER) j c := by
  intro hr
  unfold FloodReach at hr
  rcases Relation.ReflTransGen.cases_tail hr with heq | ⟨b, hjb, hbc⟩
  · exact hjc heq.symm
  · have hbw : t.getD b WATER = WATER := hno b (mooreAdj_symm hbc.1)
    rcases Relation.ReflTransGen.cases_tail hjb with heq2 | ⟨b2, hb2, hb⟩
    · exact hjw (heq2 ▸ hbw)
    · have hbel := hb.2
      simp [hbw] at hbel

/-- A scan step seeded at any cell other than an isolated land cell `c`
keeps `c`'s `seen` bit clear. -/
theorem landScanStep_lone_unmarked (w h : ℕ) (t : Array ℕ)
    (ht : t.size = w * h) (c : ℕ)
    (hno : ∀ n, mooreAdj w h c n → t.getD n WATER = WATER)
    (st : Array ℕ × List LandProfile × ℕ) (j : ℕ) (hjc : j ≠ c)
    (hsize : st.1.size = w * h) (hum : st.1.getD c 0 = 0) :
    (landScanStep w h t st j).1.getD c 0 = 0 := by
  unfold landScanStep
  split
  · exact hum
  · split
    · exact hum
    · rename_i hjw hjseen
      unfold landFlood
      dsimp only
      have hjlt : j < w * h := by
        rw [← ht]; exact Arda.lt_size_of_getD_ne hjw
      have hflood := flood_spec w h (fun n => t.getD n WATER != WATER)
        (FloodReach w h (fun n => t.getD n WATER != WATER) j)
        (fun a n ha hadj hbel => Relation.ReflTransGen.tail ha ⟨hadj, hbel⟩)
        st.1 ∅ hsize (w * h + 1) [j] st.1 ∅
        ⟨by
          intro j2 hj2
          rcases List.mem_singleton.mp hj2 with rfl
          exact ⟨Relation.ReflTransGen.refl, hjlt⟩,
         rfl, fun n hn => hn, fun n hn => Or.inl hn, by simp, by simp⟩
      obtain ⟨-, -, -, hfnew, -, -⟩ := hflood
      dsimp only at hfnew
      by_contra hmark
      rcases hfnew c hmark with hold | ⟨-, hreach, -⟩
      · exact hold hum
      · exact no_reach_isolated w h t c j hno hjw hjc hreach

/-- The scan step at an isolated, still-unseen land cell pushes a
region with an empty tile set (the fill never collects its own seed)
and an empty boundary path. -/
theorem landScanStep_lone_push (w h : ℕ) (t : Array ℕ)
    (ht : t.size = w * h) (c : ℕ) (hland : t.getD c WATER ≠ WATER)
    (hno : ∀ n, mooreAdj w h c n → t.getD n WATER = WATER)
    (st : Array ℕ × List LandProfile × ℕ) (hum : st.1.getD c 0 = 0) :
    (⟨st.2.2, ∅, []⟩ : LandProfile) ∈ (landScanStep w h t st c).2.1 := by
  have hc : c < w * h := by rw [← ht]; exact Arda.lt_size_of_getD_ne hland
  have hw0 : 0 < w := by
    rcases Nat.eq_zero_or_pos w with rfl | hw
    · simp at hc
    · exact hw
  unfold landScanStep
  rw [if_neg hland, if_neg (not_not_intro hum)]
  unfold landFlood
  dsimp only
  have hbelno : ∀ n, mooreAdj w h c n → (t.getD n WATER != WATER) = false := by
    intro n hadj
    rw [hno n hadj]
    simp
  rw [flood_no_neighbour w h _ c hc hbelno (w * h) st.1 ∅]
  have hpath : trace (c % w) (c / w) w h t LAND = [] := by
    refine trace_no_neighbour w h t LAND (c % w) (c / w)
      (Nat.mod_lt c hw0) (Nat.div_lt_of_lt_mul hc) ?_
    intro n hadj
    rw [Nat.mod_add_div' c w] at hadj
    have hnb : n < t.size := by rw [ht]; exact hadj.2.1
    rw [Arda.getD_indep t hnb LAND WATER, hno n hadj]
    decide
  rw [hpath]
  exact List.mem_append_right _ (List.mem_singleton.mpr rfl)

end Terrain

end Arda

/-- **C10.** A non-`WATER` (land) cell all of whose in-bounds Moore
neighbours read `WATER` — a single-cell landmass — yields a land region
whose tile set is **empty** (the fill collects pushed neighbours but
never the seed itself, so the cell is absent from its own region) and
whose boundary path is empty: `detectLands` returns some region
`⟨id, ∅, []⟩`. -/
theorem C10_lone_land_cell_gives_empty_region
    (w h : ℕ) (t : Array ℕ) (ht : t.size = w * h) (c : ℕ)
    (hland : t.getD c Arda.Terrain.WATER ≠ Arda.Terrain.WATER)
    (hno : ∀ n, Arda.Terrain.mooreAdj w h c n →
      t.getD n Arda.Terrain.WATER = Arda.Terrain.WATER) :
    ∃ id, (⟨id, ∅, []⟩ : Arda.Terrain.LandProfile) ∈
      Arda.Terrain.detectLands w h t := by
  have hc : c < w * h := by rw [← ht]; exact Arda.lt_size_of_getD_ne hland
  unfold Arda.Terrain.detectLands
  refine Arda.foldl_mem_establish
    (fun st => Arda.Terrain.LandScanInv w h st ∧
      ((∃ id, (⟨id, ∅, []⟩ : Arda.Terrain.LandProfile) ∈ st.2.1) ∨
        st.1.getD c 0 = 0))
    (fun st => ∃ id, (⟨id, ∅, []⟩ : Arda.Terrain.LandProfile) ∈ st.2.1)
    (Arda.Terrain.landScanStep w h t) c ?_ ?_ ?_
    (Arda.Terrain.landScanCells w h) (Array.mkArray (w * h) 0, [], 0)
    (Arda.Terrain.mem_landScanCells hc)
    ⟨⟨by simp, by simp, List.Pairwise.nil⟩, Or.inr (by
      unfold Array.getD
      split <;> simp)⟩
  · intro a j hPa
    obtain ⟨hInv, hdisj⟩ := hPa
    refine ⟨Arda.Terrain.landScanStep_spec w h t ht a j hInv, ?_⟩
    rcases hdisj with ⟨id, hid⟩ | hum
    · exact Or.inl ⟨id, Arda.Terrain.landScanStep_mono w h t a j _ hid⟩
    · by_cases hjc : j = c
      · subst hjc
        exact Or.inl ⟨a.2.2,
          Arda.Terrain.landScanStep_lone_push w h t ht j hland hno a hum⟩
      · exact Or.inr
          (Arda.Terrain.landScanStep_lone_unmarked w h t ht c hno a j hjc
            hInv.1 hum)
  · intro a j hQa
    obtain ⟨id, hid⟩ := hQa
    exact ⟨id, Arda.Terrain.landScanStep_mono w h t a j _ hid⟩
  · intro a hPa
    rcases hPa.2 with ⟨id, hid⟩ | hum
    · exact ⟨id, Arda.Terrain.landScanStep_mono w h t a c _ hid⟩
    · exact ⟨a.2.2,
        Arda.Terrain.landScanStep_lone_push w h t ht c hland hno a hum⟩

/-- Witness for C10: the centre of a 3 × 3 grid whose eight neighbours
are all `WATER` produces a land region with empty tiles and path. -/
theorem C10_witness :
    ∃ id, (⟨id, ∅, []⟩ : Arda.Terrain.LandProfile) ∈
      Arda.Terrain.detectLands 3 3 #[0, 0, 0, 0, 1, 0, 0, 0, 0] :=
  C10_lone_land_cell_gives_empty_region 3 3 #[0, 0, 0, 0, 1, 0, 0, 0, 0]
    rfl 4 (by decide)
    (by
      intro n hadj
      have h9 : n < 9 := by have := hadj.2.1; omega
      interval_cases n <;> first | rfl | exact absurd rfl hadj.2.2.1)
